import Mathlib

set_option maxRecDepth 2000

/-!
# Verification of the float-compressor codecs (src/main.cpp)

Shallow embedding of the three codecs in `src/main.cpp`:

* `Float16Compressor` (lines 3-71): 32-bit float to/from 16-bit half precision;
* `FloatCompressor` (lines 73-175): configurable range-and-precision quantizer;
* `compress18` / `decompress18` (lines 177-200): fixed 18-bit micro-float format.

All three codecs work on the raw 32-bit pattern of the input float (the C++
accesses it through a `union { float f; int32_t si; uint32_t ui; }`), so we model a
32-bit value as a `Nat` below `2^32` and faithfully translate every line of bit
manipulation.  Signed (`.si`) comparisons are modelled by `toSigned`, the two's
complement reading of the pattern.  The only places where genuine floating-point
arithmetic happens are the two subnormal-correction multiplications in
`Float16Compressor` (`s.f * v.f` with `s.f = 2^37`, and `s.f *= v.si` with
`s.f = 2^-24`); both multiply by an exact power of two, so on every input that can
influence the result the product is exact and is computed below by integer
arithmetic on the bit pattern (`mulN_fix`, `bits32ofSub`).
-/

/-- Two's complement (int32) reading of a 32-bit pattern. -/
def toSigned (w : Nat) : Int := if w < 2^31 then (w : Int) else (w : Int) - 2^32

/-- `a > b` as int32 values (C++ `a > b` on `.si`). -/
def sgt (a b : Nat) : Bool := decide (toSigned b < toSigned a)

/-- `a <= b` as int32 values (C++ `a <= b` on `.si`). -/
def sle (a b : Nat) : Bool := decide (toSigned a ≤ toSigned b)

/-- The int32 value `-(cond)` (all-ones when `cond` holds, zero otherwise), as a
32-bit pattern. -/
def negMask (b : Bool) : Nat := if b then 2^32 - 1 else 0

/-- 32-bit wrap-around subtraction (two's complement `a - b`). -/
def sub32 (a b : Nat) : Nat := (a + 2^32 - b % 2^32) % 2^32

/-- 32-bit wrap-around addition. -/
def add32 (a b : Nat) : Nat := (a + b) % 2^32

/-- The source's branchless select idiom `x ^ ((y ^ x) & -(cond))`:
`x` when `cond` is false, `y` when it is true. -/
def sel (x y : Nat) (b : Bool) : Nat := x ^^^ ((y ^^^ x) &&& negMask b)

/-- Fuelled base-2 logarithm (structural recursion, so that the kernel can
evaluate it): for `1 ≤ n < 2^fuel`, `2^(lg2 fuel n) ≤ n < 2^(lg2 fuel n + 1)`. -/
def lg2 : Nat → Nat → Nat
  | 0, _ => 0
  | fuel+1, n => if n ≤ 1 then 0 else lg2 fuel (n / 2) + 1

/-- Bit pattern of the IEEE-754 binary32 value `k * 2^(-24)` (exact for `k < 2^24`:
every such value is zero or a normal binary32, so no rounding occurs; for larger
`k` the float product would round and we return 0, but no codec below ever uses
this function outside `k < 2^18`).

This models `s.si = c_mul; s.f *= v.si;` of `Float16Compressor::decompress`
(src/main.cpp lines 61-63, with `c_mul = 0x33800000`, the pattern of `2^-24`):
multiplying the exact integer `v.si` by the power of two `2^-24`. -/
def bits32ofSub (k : Nat) : Nat :=
  if k = 0 then 0
  else if k < 2^24 then
    let p := lg2 24 k
    (103 + p) * 2^23 + (k - 2^p) * 2^(23 - p)
  else 0

namespace Float16Compressor

def shift : Nat := 13
def shift_sign : Nat := 16

/-- float32 infinity. -/
def n_inf : Nat := 0x7F800000
/-- max float16 normal as a float32. -/
def n_max : Nat := 0x477FE000
/-- min float16 normal as a float32. -/
def n_min : Nat := 0x38800000
/-- float32 sign bit. -/
def n_sign : Nat := 0x80000000

def c_inf : Nat := n_inf >>> shift
/-- minimum float16 nan as a float32. -/
def n_nan : Nat := (c_inf + 1) <<< shift
def c_max : Nat := n_max >>> shift
def c_min : Nat := n_min >>> shift
/-- float16 sign bit: `n_sign >> shift_sign` is an ARITHMETIC shift of the int32
`0x80000000 = INT32_MIN`, giving the pattern `0xFFFF8000`. -/
def c_sign : Nat := 0xFFFF8000

/-- `(1 << 23) / n_min`: the pattern of the float `2^37`. -/
def n_mul : Nat := 0x52000000
/-- `n_min / (1 << (23 - shift))`: the pattern of the float `2^-24`. -/
def c_mul : Nat := 0x33800000

/-- max float32 subnormal down shifted. -/
def c_sub : Nat := 0x003FF
/-- min float32 normal down shifted. -/
def c_nor : Nat := 0x00400

def d_max : Nat := c_inf - c_max - 1
def d_min : Nat := c_min - c_sub - 1

/-- Models `s.si = n_mul; s.si = static_cast<int32_t>(s.f * v.f);` of
`compress` (src/main.cpp lines 42-43): `s.f` is the float `2^37` and `v.f` the
sign-stripped input, so this is the truncation toward zero of `2^37 * value(v)`,
computed on the bit pattern (`e`/`m` the exponent/significand fields of `v`).
The float product is exact whenever `value(v) < 2^(-6)`; in particular whenever
the result is selected by the following `n_min > v.si` mask (`e ≤ 112`).  For
`e ≥ 121` (including infinities and NaNs) the C++ cast of a value `≥ 2^31` is
undefined behaviour (x86 produces `0x80000000`); those inputs are never selected
by the mask. -/
def mulN_fix (v : Nat) : Nat :=
  let e := v >>> 23
  let m := v &&& 0x7FFFFF
  if e = 0 then 0
  else if e < 113 then (2^23 + m) >>> (113 - e)
  else if e ≤ 120 then (2^23 + m) <<< (e - 113)
  else 0x80000000

/-- `Float16Compressor::compress` (src/main.cpp lines 36-51), on the raw bit
pattern of the float argument. -/
def compress (w : Nat) : Nat :=
  let sign := w &&& n_sign
  let v := w ^^^ sign
  let sign := sign >>> shift_sign
  let s := mulN_fix v
  let v := sel v s (sgt n_min v)
  let v := sel v n_inf (sgt n_inf v && sgt v n_max)
  let v := sel v n_nan (sgt n_nan v && sgt v n_inf)
  let v := v >>> shift
  let v := sel v (sub32 v d_max) (sgt v c_max)
  let v := sel v (sub32 v d_min) (sgt v c_sub)
  (v ||| sign) % 2^16

/-- `Float16Compressor::decompress` (src/main.cpp lines 53-69); the result is the
raw bit pattern of the returned float. -/
def decompress (h : Nat) : Nat :=
  let v := h % 2^16
  let sign := v &&& c_sign
  let v := v ^^^ sign
  let sign := (sign <<< shift_sign) % 2^32
  let v := sel v (add32 v d_min) (sgt v c_sub)
  let v := sel v (add32 v d_max) (sgt v c_max)
  let s := bits32ofSub v
  let mask := negMask (sgt c_nor v)
  let v := (v <<< shift) % 2^32
  let v := v ^^^ ((s ^^^ v) &&& mask)
  v ||| sign

end Float16Compressor

/-- The state of a constructed `FloatCompressor` (src/main.cpp lines 81-90). -/
structure FloatCompressor where
  negatives : Bool
  lossless : Bool
  f_max : Nat
  f_min : Nat
  f_eps : Nat
  c_max : Nat
  c_zero : Nat
  p_delta : Nat
  n_delta : Nat
  shift : Nat

namespace FloatCompressor

def signF : Nat := 0x80000000
def absF : Nat := 0x7FFFFFFF

/-- `FloatCompressor::FloatCompressor(min, epsilon, max, precision)`
(src/main.cpp lines 97-125).  The constructor only ever bit-casts its three float
arguments, so the model takes their raw bit patterns directly.  `shift` is
`23 - precision` (for the documented range `0 ≤ precision ≤ 23` this matches the
C++ `int` subtraction). -/
def mk32 (f_min f_eps f_max : Nat) (precision : Nat) : FloatCompressor :=
  let shift := 23 - precision
  let negatives := sgt 0 f_min
  let lossless := shift == 0
  let nepsU := if lossless then f_eps else (f_eps ^^^ signF) >>> shift
  let pepsU := if lossless then f_eps ^^^ signF else f_eps >>> shift
  let c_max := if lossless then f_max ^^^ signF else f_max >>> shift
  let c_zero := if lossless then signF else 0
  { negatives := negatives, lossless := lossless,
    f_max := f_max, f_min := f_min, f_eps := f_eps,
    c_max := c_max, c_zero := c_zero,
    p_delta := sub32 (sub32 pepsU c_zero) 1,
    n_delta := sub32 (sub32 nepsU c_max) 1,
    shift := shift }

/-- `FloatCompressor::clamp` (src/main.cpp lines 127-137). -/
def clamp (fc : FloatCompressor) (w : Nat) : Nat :=
  let mx := if fc.negatives then sel fc.f_max fc.f_min (sgt 0 w) else fc.f_max
  let v := sel w mx (sgt w mx)
  v &&& negMask (sle fc.f_eps (v &&& absF))

/-- `FloatCompressor::compress` (src/main.cpp lines 139-155). -/
def compress (fc : FloatCompressor) (w : Nat) : Nat :=
  let v := fc.clamp w
  let v := if fc.lossless then v ^^^ signF else v >>> fc.shift
  let v := if fc.negatives then sel v (sub32 v fc.n_delta) (sgt v fc.c_max) else v
  let v := sel v (sub32 v fc.p_delta) (sgt v fc.c_zero)
  if fc.lossless then v ^^^ signF else v

/-- `FloatCompressor::decompress` (src/main.cpp lines 157-173); the result is the
raw bit pattern of the returned float. -/
def decompress (fc : FloatCompressor) (w : Nat) : Nat :=
  let v := w % 2^32
  let v := if fc.lossless then v ^^^ signF else v
  let v := sel v (add32 v fc.p_delta) (sgt v fc.c_zero)
  let v := if fc.negatives then sel v (add32 v fc.n_delta) (sgt v fc.c_max) else v
  if fc.lossless then v ^^^ signF else (v <<< fc.shift) % 2^32

end FloatCompressor

/-- `compress18` (src/main.cpp lines 184-191), on the raw bit pattern of the
float argument.  All intermediate arithmetic is `uint32_t`, hence the
wrap-around subtraction and the reduction of the shifted exponent field. -/
def compress18 (w : Nat) : Nat :=
  let t := (w &&& 0x7ff800) >>> 11
  let t := t ||| (((sub32 ((w &&& 0x7f800000) >>> 23) 0x70) <<< 12) % 2^32)
  let t := t ||| ((w &&& 0x80000000) >>> 14)
  t

/-- `decompress18` (src/main.cpp lines 193-200); the result is the raw bit
pattern of the returned float.  (No intermediate here can reach `2^32`, so no
wrap-around reduction is needed.) -/
def decompress18 (n : Nat) : Nat :=
  let t := (n &&& 0xfff) <<< 11
  let t := t ||| ((((n &&& 0x1f000) >>> 12) + 0x70) <<< 23)
  let t := t ||| ((n &&& 0x20000) <<< 14)
  t

/-!
## Value-level vocabulary for the claims

The claims speak about float values (`|x| < 65504`, `min ≤ x ≤ max`, NaN, ...).
On bit patterns these are the standard IEEE-754 sign/magnitude notions.
-/

/-- Magnitude bits of a pattern (the pattern with the sign bit cleared). -/
def mag32 (w : Nat) : Nat := w % 2^31

/-- Sign bit of a pattern. -/
def sign32 (w : Nat) : Nat := w / 2^31 % 2

/-- `w` is an IEEE-754 binary32 NaN (exponent field 255, significand nonzero),
i.e. its magnitude bits lie strictly above the infinity pattern `0x7F800000`. -/
def isNaN32 (w : Nat) : Prop := 0x7F800000 < mag32 w

instance (w : Nat) : Decidable (isNaN32 w) := by unfold isNaN32; infer_instance

/-- The standard order key of an IEEE-754 binary32 bit pattern: positive patterns
(sign bit clear) are shifted up by `2^31` and keep their magnitude order, negative
patterns are reflected below.  For non-NaN patterns `w₁, w₂`, the IEEE comparison
`value(w₁) ≤ value(w₂)` holds iff `ordKey w₁ ≤ ordKey w₂`; in particular
`ordKey` identifies `-0.0` and `+0.0` (both map to `2^31`), exactly as IEEE
equality does. -/
def ordKey (w : Nat) : Nat := if w < 2^31 then 2^31 + w else 2^32 - w

/-- IEEE-754 `a ≤ b` on non-NaN 32-bit patterns (false whenever either side is
NaN, and `-0.0 = +0.0`). -/
def fle (a b : Nat) : Prop := ¬isNaN32 a ∧ ¬isNaN32 b ∧ ordKey a ≤ ordKey b

instance (a b : Nat) : Decidable (fle a b) := by unfold fle; infer_instance

/-- The documented `FloatCompressor` configuration precondition
`min ≤ 0 < epsilon < max` (src/main.cpp lines 98-99), read on the bit patterns of
the three float arguments: `min` is `+0.0` or a negative non-NaN value (sign bit
set, magnitude at most the infinity pattern), `epsilon` is strictly positive, and
`epsilon < max` with both positive and `max` at most the infinity pattern. -/
def ValidCfg (f_min f_eps f_max : Nat) : Prop :=
  (f_min = 0 ∨ (2^31 ≤ f_min ∧ f_min ≤ 2^31 + 0x7F800000)) ∧
  0 < f_eps ∧ f_eps < f_max ∧ f_max ≤ 0x7F800000

instance (a b c : Nat) : Decidable (ValidCfg a b c) := by unfold ValidCfg; infer_instance

/-- The IEEE-754 binary32 bit pattern denoting the same real value as the
binary16 (half-precision) pattern `h` (sign 1 / exponent 5 / significand 10 with
bias 15): the zero/subnormal regime `e₅ = 0` denotes `m₁₀ · 2^(-24)`, the normal
regime `1 ≤ e₅ ≤ 30` denotes `±(2^10 + m₁₀) · 2^(e₅ - 25)`, whose binary32
pattern has exponent field `e₅ + 112` and significand `m₁₀ · 2^13`; `e₅ = 31`
(infinities and NaNs, unused by the claims) maps to the binary32 pattern with
exponent field 255 and the payload shifted up by 13 bits. -/
def bits32ofHalf (h : Nat) : Nat :=
  let s := h / 2^15 % 2
  let e5 := h / 2^10 % 2^5
  let m10 := h % 2^10
  if e5 = 0 then s * 2^31 + bits32ofSub m10
  else if e5 = 31 then s * 2^31 + 0x7F800000 + m10 * 2^13
  else s * 2^31 + (e5 + 112) * 2^23 + m10 * 2^13

namespace FloatCompressor

/-- The set of possible outputs of `clamp` under a valid configuration: exact
positive zero, a positive value in `[epsilon, max]`, or a negative value with
magnitude at least `epsilon` (bounded by `|min|` when negatives are
representable). -/
def ClampOut (fc : FloatCompressor) (z : Nat) : Prop :=
  z = 0 ∨
  (0 < z ∧ z < 2^31 ∧ fc.f_eps ≤ z ∧ z ≤ fc.f_max) ∨
  (2^31 ≤ z ∧ z < 2^32 ∧ fc.f_eps ≤ z - 2^31 ∧ (fc.negatives = true → z ≤ fc.f_min))

/-- The configuration precondition, read off the constructed fields (holds for
`mk32` applied to any `ValidCfg` arguments, at every precision). -/
def ValidFields (fc : FloatCompressor) : Prop :=
  (fc.f_min = 0 ∨ (2^31 ≤ fc.f_min ∧ fc.f_min ≤ 2^31 + 0x7F800000)) ∧
  fc.negatives = sgt 0 fc.f_min ∧
  1 ≤ fc.f_eps ∧ fc.f_eps < fc.f_max ∧ fc.f_max ≤ 0x7F800000

end FloatCompressor

/-!
## Bit-manipulation toolkit

Lemmas turning the source's branchless idioms into conditionals and plain
arithmetic, so that `omega` can reason about the codecs.
-/

theorem sel_eq {x y : Nat} (hx : x < 2^32) (hy : y < 2^32) (b : Bool) :
    sel x y b = if b then y else x := by
  cases b with
  | false => simp [sel, negMask]
  | true =>
    have hxy : y ^^^ x < 2^32 := Nat.xor_lt_two_pow hy hx
    simp only [sel, negMask, if_pos, if_true]
    rw [Nat.and_pow_two_sub_one_eq_mod, Nat.mod_eq_of_lt hxy, Nat.xor_comm y x,
      ← Nat.xor_assoc, Nat.xor_self, Nat.zero_xor]

theorem and_negMask {v : Nat} (hv : v < 2^32) (b : Bool) :
    v &&& negMask b = if b then v else 0 := by
  cases b with
  | false => simp [negMask]
  | true =>
    simp only [negMask, if_true]
    rw [Nat.and_pow_two_sub_one_eq_mod, Nat.mod_eq_of_lt hv]

theorem xor_disjoint_pow {r n : Nat} (h : r < 2^n) : r ^^^ 2^n = r + 2^n := by
  apply Nat.eq_of_testBit_eq
  intro i
  rw [Nat.testBit_xor, Nat.add_comm, show 2^n + r = 2^n * 1 + r by ring,
    Nat.testBit_mul_pow_two_add 1 h, Nat.testBit_two_pow]
  rcases Nat.lt_trichotomy i n with hi | rfl | hi
  · simp [hi, Nat.ne_of_gt hi]
  · have hr : r.testBit i = false := Nat.testBit_lt_two_pow h
    simp [hr, Nat.testBit_zero]
  · have hr : r.testBit i = false :=
      Nat.testBit_lt_two_pow (lt_of_lt_of_le h (Nat.pow_le_pow_right (by omega) (le_of_lt hi)))
    have h1 : Nat.testBit 1 (i - n) = false := by
      rw [show (1:Nat) = 2^0 by norm_num, Nat.testBit_two_pow]
      simp
      omega
    simp [hr, h1, Nat.not_lt.mpr (le_of_lt hi), Nat.ne_of_lt hi]

theorem xor_top {v : Nat} (hv : v < 2^32) : v ^^^ 2^31 = (v + 2^31) % 2^32 := by
  rcases Nat.lt_or_ge v (2^31) with h | h
  · rw [xor_disjoint_pow h, Nat.mod_eq_of_lt (by omega)]
  · obtain ⟨r, hr, rfl⟩ : ∃ r, r < 2^31 ∧ v = r + 2^31 := ⟨v - 2^31, by omega, by omega⟩
    have hx : (r + 2^31) ^^^ 2^31 = r := by
      rw [← xor_disjoint_pow hr, Nat.xor_assoc, Nat.xor_self, Nat.xor_zero]
    rw [hx]
    omega

theorem and_field (n lo len : Nat) :
    n &&& ((2^len - 1) * 2^lo) = n / 2^lo % 2^len * 2^lo := by
  apply Nat.eq_of_testBit_eq
  intro i
  rw [Nat.testBit_and, ← Nat.shiftLeft_eq, Nat.testBit_shiftLeft,
    ← Nat.shiftLeft_eq (n / 2^lo % 2^len), Nat.testBit_shiftLeft,
    ← Nat.shiftRight_eq_div_pow, Nat.testBit_mod_two_pow, Nat.testBit_shiftRight,
    Nat.testBit_two_pow_sub_one]
  rcases Nat.lt_or_ge i lo with hi | hi
  · have hd : decide (i ≥ lo) = false := by
      simp
      omega
    rw [hd]
    simp
  · have hlo : lo + (i - lo) = i := by omega
    have hd : decide (i ≥ lo) = true := decide_eq_true hi
    rw [hlo, hd]
    cases n.testBit i <;> cases decide (i - lo < len) <;> simp

theorem and_pow {n k : Nat} : n &&& 2^k = n / 2^k % 2 * 2^k := by
  have := and_field n k 1
  simpa using this

theorem or_disjoint {a b k : Nat} (hb : b < 2^k) : a * 2^k ||| b = a * 2^k + b := by
  rw [mul_comm, ← Nat.mul_add_lt_is_or hb, mul_comm]


theorem toSigned_of_lt {w : Nat} (h : w < 2^31) : toSigned w = w := if_pos h

theorem toSigned_of_ge {w : Nat} (h : 2^31 ≤ w) : toSigned w = (w : Int) - 2^32 :=
  if_neg (by omega)

theorem sgt_true {a b : Nat} (h : toSigned b < toSigned a) : sgt a b = true := by
  simpa [sgt] using h

theorem sgt_false {a b : Nat} (h : toSigned a ≤ toSigned b) : sgt a b = false := by
  simp only [sgt, decide_eq_false_iff_not]
  exact not_lt.mpr h

theorem sle_true {a b : Nat} (h : toSigned a ≤ toSigned b) : sle a b = true := by
  simpa [sle] using h

theorem sle_false {a b : Nat} (h : toSigned b < toSigned a) : sle a b = false := by
  simp only [sle, decide_eq_false_iff_not]
  exact not_le.mpr h

theorem sgt_small {a b : Nat} (ha : a < 2^31) (hb : b < 2^31) :
    sgt a b = decide (b < a) := by
  rcases Nat.lt_or_ge b a with h | h
  · rw [sgt_true (by rw [toSigned_of_lt ha, toSigned_of_lt hb]; exact_mod_cast h)]
    simp [h]
  · rw [sgt_false (by rw [toSigned_of_lt ha, toSigned_of_lt hb]; exact_mod_cast h)]
    simp
    omega

theorem mulN_fix_lt (v : Nat) : Float16Compressor.mulN_fix v < 2^32 := by
  simp only [Float16Compressor.mulN_fix]
  have hm : v &&& 0x7FFFFF ≤ 0x7FFFFF := Nat.and_le_right
  split
  · omega
  · split
    · rw [Nat.shiftRight_eq_div_pow]
      exact lt_of_le_of_lt (Nat.div_le_self _ _) (by omega)
    · split
      · rw [Nat.shiftLeft_eq]
        have h1 : v >>> 23 - 113 ≤ 7 := by omega
        have h2 : (2:Nat)^(v >>> 23 - 113) ≤ 2^7 := Nat.pow_le_pow_right (by omega) h1
        have h3 : 2^23 + (v &&& 0x7FFFFF) ≤ 2^24 - 1 := by omega
        calc (2^23 + (v &&& 0x7FFFFF)) * 2^(v >>> 23 - 113)
            ≤ (2^24 - 1) * 2^7 := Nat.mul_le_mul h3 h2
          _ < 2^32 := by norm_num
      · norm_num

theorem strip_top {w : Nat} (hw : w < 2^32) : w ^^^ (w &&& 2^31) = w % 2^31 := by
  rw [and_pow]
  rcases Nat.lt_or_ge w (2^31) with h | h
  · have h0 : w / 2^31 % 2 = 0 := by omega
    rw [h0]
    simp
    omega
  · have h1 : w / 2^31 % 2 = 1 := by omega
    rw [h1, one_mul, xor_top hw]
    omega


theorem sub32_lt (a b : Nat) : sub32 a b < 2^32 := Nat.mod_lt _ (by norm_num)

theorem add32_lt (a b : Nat) : add32 a b < 2^32 := Nat.mod_lt _ (by norm_num)

theorem strip_pow {w k : Nat} (hw : w < 2 * 2^k) : w ^^^ (w / 2^k * 2^k) = w % 2^k := by
  have hpos : 0 < 2^k := Nat.pos_pow_of_pos _ (by norm_num)
  have hmlt : w % 2^k < 2^k := Nat.mod_lt _ hpos
  rcases Nat.lt_or_ge w (2^k) with h | h
  · rw [Nat.div_eq_of_lt h, Nat.mod_eq_of_lt h]
    simp
  · have hlt2 : w / 2^k < 2 := Nat.div_lt_of_lt_mul (by omega)
    have hge1 : 1 ≤ w / 2^k := (Nat.one_le_div_iff hpos).mpr h
    have h1 : w / 2^k = 1 := by omega
    have hdm := Nat.div_add_mod w (2^k)
    rw [h1, mul_one] at hdm
    rw [h1, one_mul]
    have hx : (w % 2^k + 2^k) ^^^ 2^k = w % 2^k := by
      rw [← xor_disjoint_pow (show w % 2^k < 2^k from hmlt), Nat.xor_assoc,
        Nat.xor_self, Nat.xor_zero]
    conv_lhs => rw [show w = w % 2^k + 2^k by omega]
    exact hx

theorem lg2_le (fuel : Nat) : ∀ n, lg2 fuel n ≤ fuel := by
  induction fuel with
  | zero => intro n; rw [lg2]
  | succ f ih =>
    intro n
    rw [lg2]
    split
    · omega
    · have := ih (n / 2)
      omega

theorem lg2_spec (fuel : Nat) : ∀ n, 1 ≤ n → n < 2^fuel →
    2^(lg2 fuel n) ≤ n ∧ n < 2^(lg2 fuel n + 1) := by
  induction fuel with
  | zero =>
    intro n h1 h2
    simp at h2
    omega
  | succ f ih =>
    intro n h1 h2
    rw [lg2]
    split
    · have : n = 1 := by omega
      subst this
      norm_num
    · have hn2 : 1 ≤ n / 2 := by omega
      have hps : (2:Nat)^(f+1) = 2^f * 2 := pow_succ 2 f
      have hn2' : n / 2 < 2^f := by omega
      obtain ⟨ha, hb⟩ := ih (n/2) hn2 hn2'
      have e1 : (2:Nat)^(lg2 f (n/2) + 1) = 2^(lg2 f (n/2)) * 2 := pow_succ 2 _
      have e2 : (2:Nat)^(lg2 f (n/2) + 1 + 1) = 2^(lg2 f (n/2) + 1) * 2 := pow_succ 2 _
      constructor
      · omega
      · omega

theorem bits32ofSub_lt (k : Nat) : bits32ofSub k < 2^30 := by
  simp only [bits32ofSub]
  split
  · norm_num
  · split
    · rename_i hk0 hk24
      have hp : lg2 24 k ≤ 23 := by
        have h1 := lg2_le 24 k
        obtain ⟨ha, _⟩ := lg2_spec 24 k (by omega) hk24
        by_contra hc
        have h24 : lg2 24 k = 24 := by omega
        rw [h24] at ha
        norm_num at ha hk24
        omega
      obtain ⟨ha, hb⟩ := lg2_spec 24 k (by omega) hk24
      have hsub : k - 2^(lg2 24 k) < 2^(lg2 24 k) := by
        have e1 : (2:Nat)^(lg2 24 k + 1) = 2^(lg2 24 k) * 2 := pow_succ 2 _
        omega
      have hmul : (k - 2^(lg2 24 k)) * 2^(23 - lg2 24 k) < 2^23 := by
        calc (k - 2^(lg2 24 k)) * 2^(23 - lg2 24 k)
            < 2^(lg2 24 k) * 2^(23 - lg2 24 k) :=
              (Nat.mul_lt_mul_right (Nat.pos_pow_of_pos _ (by norm_num))).mpr hsub
          _ = 2^23 := by rw [← pow_add]; congr 1; omega
      have h103 : 103 + lg2 24 k ≤ 126 := by omega
      have : (103 + lg2 24 k) * 2^23 ≤ 126 * 2^23 := Nat.mul_le_mul_right _ h103
      norm_num at this hmul ⊢
      omega
    · norm_num

theorem sel_of_false {x y : Nat} {b : Bool} (hb : b = false) : sel x y b = x := by
  subst hb
  simp [sel, negMask]

theorem sel_of_true {x y : Nat} (hx : x < 2^32) (hy : y < 2^32) {b : Bool} (hb : b = true) :
    sel x y b = y := by
  subst hb
  rw [sel_eq hx hy]
  simp

theorem sgt_lt_true {a b : Nat} (ha : a < 2^31) (h : b < a) : sgt a b = true :=
  sgt_true (by rw [toSigned_of_lt ha, toSigned_of_lt (lt_trans h ha)]; exact_mod_cast h)

theorem sgt_le_false {a b : Nat} (hb : b < 2^31) (h : a ≤ b) : sgt a b = false :=
  sgt_false (by rw [toSigned_of_lt (lt_of_le_of_lt h hb), toSigned_of_lt hb]; exact_mod_cast h)

namespace Float16Compressor

/-- `compress` on a sign/magnitude split input: the sign strip, sign shift and
final reattachment evaluated. -/
theorem compress_decomp (s M : Nat) (hs : s < 2) (hM : M < 2^31) :
    compress (s * 2^31 + M) =
      (let v1 := sel M (mulN_fix M) (sgt n_min M)
       let v2 := sel v1 n_inf (sgt n_inf v1 && sgt v1 n_max)
       let v3 := sel v2 n_nan (sgt n_nan v2 && sgt v2 n_inf)
       let c := v3 >>> shift
       let c1 := sel c (sub32 c d_max) (sgt c c_max)
       let c2 := sel c1 (sub32 c1 d_min) (sgt c1 c_sub)
       (c2 ||| s * 2^15) % 2^16) := by
  have h1 : (s * 2^31 + M) &&& n_sign = s * 2^31 := by
    rw [show n_sign = 2^31 from rfl, and_pow]
    have hx : (s * 2^31 + M) / 2^31 % 2 = s := by omega
    rw [hx]
  have h2 : (s * 2^31 + M) ^^^ (s * 2^31) = M := by
    have h := @strip_pow (s * 2^31 + M) 31 (by omega)
    rw [show (s * 2^31 + M) / 2^31 = s by omega,
      show (s * 2^31 + M) % 2^31 = M by omega] at h
    exact h
  have h3 : (s * 2^31) >>> shift_sign = s * 2^15 := by
    rw [show shift_sign = 16 from rfl, Nat.shiftRight_eq_div_pow]
    omega
  simp only [compress]
  rw [h1, h2, h3]

/-- `decompress` on a sign/code split input: the sign strip, sign shift and
final reattachment evaluated. -/
theorem decompress_decomp (s c : Nat) (hs : s < 2) (hc : c < 2^15) :
    decompress (s * 2^15 + c) =
      (let c1 := sel c (add32 c d_min) (sgt c c_sub)
       let c2 := sel c1 (add32 c1 d_max) (sgt c1 c_max)
       let r := sel ((c2 <<< shift) % 2^32) (bits32ofSub c2) (sgt c_nor c2)
       r ||| s * 2^31) := by
  have h0 : (s * 2^15 + c) % 2^16 = s * 2^15 + c := Nat.mod_eq_of_lt (by omega)
  have h1 : (s * 2^15 + c) &&& c_sign = s * 2^15 := by
    rw [show c_sign = (2^17 - 1) * 2^15 from rfl, and_field]
    have hx : (s * 2^15 + c) / 2^15 % 2^17 = s := by omega
    rw [hx]
  have h2 : (s * 2^15 + c) ^^^ (s * 2^15) = c := by
    have h := @strip_pow (s * 2^15 + c) 15 (by omega)
    rw [show (s * 2^15 + c) / 2^15 = s by omega,
      show (s * 2^15 + c) % 2^15 = c by omega] at h
    exact h
  have h3 : ((s * 2^15) <<< shift_sign) % 2^32 = s * 2^31 := by
    rw [show shift_sign = 16 from rfl, Nat.shiftLeft_eq]
    have : s * 2^15 * 2^16 = s * 2^31 := by ring
    rw [this]
    omega
  simp only [decompress, sel]
  rw [h0, h1, h2, h3]

end Float16Compressor

theorem bits32ofSub_eval {k : Nat} (h1 : 1 ≤ k) (hk : k < 2^24) :
    bits32ofSub k = (103 + lg2 24 k) * 2^23 + (k - 2^(lg2 24 k)) * 2^(23 - lg2 24 k) := by
  simp only [bits32ofSub]
  rw [if_neg (by omega), if_pos hk]

namespace Float16Compressor

theorem n_min_val : n_min = 0x38800000 := rfl
theorem n_max_val : n_max = 0x477FE000 := rfl
theorem n_inf_val : n_inf = 0x7F800000 := rfl
theorem n_nan_val : n_nan = 0x7F802000 := rfl
theorem c_max_val : c_max = 0x23BFF := rfl
theorem c_sub_val : c_sub = 0x3FF := rfl
theorem c_nor_val : c_nor = 0x400 := rfl
theorem d_max_val : d_max = 0x1C000 := rfl
theorem d_min_val : d_min = 0x1C000 := rfl
theorem shift_val : shift = 13 := rfl

/-- `compress` on the pattern of a half-subnormal value `± k * 2^(-24)`,
`k < 2^10`: the result is the half pattern with code `k`. -/
theorem sel_false (x y : Nat) : sel x y false = x := sel_of_false rfl

theorem compress_sub (s k : Nat) (hs : s < 2) (hk : k < 2^10) :
    compress (s * 2^31 + bits32ofSub k) = s * 2^15 + k := by
  rcases Nat.eq_zero_or_pos k with rfl | hk1
  · interval_cases s
    · decide
    · decide
  · obtain ⟨ha, hb⟩ := lg2_spec 24 k (by omega) (by omega)
    have hp9 : lg2 24 k ≤ 9 := by
      by_contra hc
      have : (2:Nat)^10 ≤ 2^(lg2 24 k) := Nat.pow_le_pow_right (by norm_num) (by omega)
      norm_num at this
      omega
    have heq := @bits32ofSub_eval k (by omega) (by omega)
    obtain ⟨p, hpeq⟩ : ∃ p, lg2 24 k = p := ⟨_, rfl⟩
    rw [hpeq] at heq ha hb hp9
    have hppos : (0:Nat) < 2^p := Nat.pos_pow_of_pos _ (by norm_num)
    have hpsucc : (2:Nat)^(p+1) = 2^p * 2 := pow_succ 2 p
    have hr : k - 2^p < 2^p := by omega
    have hpow : (2:Nat)^p * 2^(23-p) = 2^23 := by
      rw [← pow_add]
      congr 1
      omega
    have hr23 : (k - 2^p) * 2^(23-p) < 2^23 := by
      calc (k - 2^p) * 2^(23-p)
          < 2^p * 2^(23-p) := (Nat.mul_lt_mul_right (Nat.pos_pow_of_pos _ (by norm_num))).mpr hr
        _ = 2^23 := hpow
    have hM31 : (103 + p) * 2^23 + (k - 2^p) * 2^(23-p) < 2^31 := by
      have : (103 + p) * 2^23 ≤ 112 * 2^23 := Nat.mul_le_mul_right _ (by omega)
      norm_num at this ⊢
      omega
    rw [heq, compress_decomp s _ hs hM31]
    have hmulN : mulN_fix ((103 + p) * 2^23 + (k - 2^p) * 2^(23-p)) = k * 2^13 := by
      have hdiv : ((103 + p) * 2^23 + (k - 2^p) * 2^(23-p)) >>> 23 = 103 + p := by
        rw [Nat.shiftRight_eq_div_pow]
        omega
      have hmod : ((103 + p) * 2^23 + (k - 2^p) * 2^(23-p)) &&& 0x7FFFFF
          = (k - 2^p) * 2^(23-p) := by
        rw [show (0x7FFFFF:Nat) = 2^23 - 1 from rfl, Nat.and_pow_two_sub_one_eq_mod]
        omega
      simp only [mulN_fix, hdiv, hmod]
      rw [if_neg (by omega), if_pos (by omega)]
      have h1 : (2:Nat)^23 + (k - 2^p) * 2^(23-p) = k * 2^(23-p) := by
        have h2 : k * 2^(23-p) = (2^p + (k - 2^p)) * 2^(23-p) := by
          congr 1
          omega
        rw [h2, add_mul, hpow]
      rw [h1, show 113 - (103 + p) = 10 - p by omega, Nat.shiftRight_eq_div_pow]
      have h2 : (2:Nat)^(23-p) = 2^13 * 2^(10-p) := by
        rw [← pow_add]
        congr 1
        omega
      rw [h2, ← mul_assoc, Nat.mul_div_cancel _ (Nat.pos_pow_of_pos _ (by norm_num))]
    have hMlt : (103 + p) * 2^23 + (k - 2^p) * 2^(23-p) < 2^32 := by omega
    have hklt : k * 2^13 < 2^32 := by omega
    have hb1 : sgt n_min ((103 + p) * 2^23 + (k - 2^p) * 2^(23-p)) = true := by
      apply sgt_lt_true (by rw [n_min_val]; norm_num)
      rw [n_min_val]
      have : (103 + p) * 2^23 ≤ 112 * 2^23 := Nat.mul_le_mul_right _ (by omega)
      norm_num at this ⊢
      omega
    have hsel1 : sel ((103 + p) * 2^23 + (k - 2^p) * 2^(23-p)) (k * 2^13)
        (sgt n_min ((103 + p) * 2^23 + (k - 2^p) * 2^(23-p))) = k * 2^13 :=
      sel_of_true hMlt hklt hb1
    have hb2 : sgt (k * 2^13) n_max = false := by
      apply sgt_le_false (by rw [n_max_val]; norm_num)
      rw [n_max_val]
      omega
    have hb3 : sgt (k * 2^13) n_inf = false := by
      apply sgt_le_false (by rw [n_inf_val]; norm_num)
      rw [n_inf_val]
      omega
    have hshift : (k * 2^13) >>> shift = k := by
      rw [shift_val, Nat.shiftRight_eq_div_pow]
      omega
    have hb4 : sgt k c_max = false := by
      apply sgt_le_false (by rw [c_max_val]; norm_num)
      rw [c_max_val]
      omega
    have hb5 : sgt k c_sub = false := by
      apply sgt_le_false (by rw [c_sub_val]; norm_num)
      rw [c_sub_val]
      omega
    simp only [hmulN, hsel1, hb2, Bool.and_false, sel_false, hb3, hshift, hb4, hb5]
    rw [Nat.lor_comm, or_disjoint (show k < 2^15 by omega), Nat.mod_eq_of_lt (by omega)]

end Float16Compressor

namespace Float16Compressor

theorem sel_same (x : Nat) (b : Bool) : sel x x b = x := by
  simp [sel]

/-- `compress` on the pattern of a half-normal value: exponent field
`e5 + 112` with `1 ≤ e5 ≤ 30`, significand `m10 * 2^13`. -/
theorem compress_normal (s e5 m10 : Nat) (hs : s < 2) (h1 : 1 ≤ e5) (h2 : e5 ≤ 30)
    (hm : m10 < 2^10) :
    compress (s * 2^31 + ((e5 + 112) * 2^23 + m10 * 2^13)) = s * 2^15 + (e5 * 2^10 + m10) := by
  have hM31 : (e5 + 112) * 2^23 + m10 * 2^13 < 2^31 := by
    have : (e5 + 112) * 2^23 ≤ 142 * 2^23 := Nat.mul_le_mul_right _ (by omega)
    norm_num at this ⊢
    omega
  rw [compress_decomp s _ hs hM31]
  have hb1 : sgt n_min ((e5 + 112) * 2^23 + m10 * 2^13) = false := by
    apply sgt_le_false (by omega)
    rw [n_min_val]
    have : 113 * 2^23 ≤ (e5 + 112) * 2^23 := Nat.mul_le_mul_right _ (by omega)
    norm_num at this ⊢
    omega
  have hb2 : sgt ((e5 + 112) * 2^23 + m10 * 2^13) n_max = false := by
    apply sgt_le_false (by rw [n_max_val]; norm_num)
    rw [n_max_val]
    have : (e5 + 112) * 2^23 ≤ 142 * 2^23 := Nat.mul_le_mul_right _ (by omega)
    norm_num at this ⊢
    omega
  have hb3 : sgt ((e5 + 112) * 2^23 + m10 * 2^13) n_inf = false := by
    apply sgt_le_false (by rw [n_inf_val]; norm_num)
    rw [n_inf_val]
    have : (e5 + 112) * 2^23 ≤ 142 * 2^23 := Nat.mul_le_mul_right _ (by omega)
    norm_num at this ⊢
    omega
  have hshift : ((e5 + 112) * 2^23 + m10 * 2^13) >>> shift = (e5 + 112) * 2^10 + m10 := by
    rw [shift_val, Nat.shiftRight_eq_div_pow]
    omega
  have hc31 : (e5 + 112) * 2^10 + m10 < 2^31 := by omega
  have hb4 : sgt ((e5 + 112) * 2^10 + m10) c_max = false := by
    apply sgt_le_false (by rw [c_max_val]; norm_num)
    rw [c_max_val]
    omega
  have hb5 : sgt ((e5 + 112) * 2^10 + m10) c_sub = true := by
    apply sgt_lt_true hc31
    rw [c_sub_val]
    omega
  have hsub : sub32 ((e5 + 112) * 2^10 + m10) d_min = e5 * 2^10 + m10 := by
    rw [d_min_val]
    simp only [sub32]
    omega
  have hsel5 : sel ((e5 + 112) * 2^10 + m10) (sub32 ((e5 + 112) * 2^10 + m10) d_min)
      (sgt ((e5 + 112) * 2^10 + m10) c_sub) = e5 * 2^10 + m10 := by
    rw [sel_of_true (by omega) (sub32_lt _ _) hb5, hsub]
  simp only [hb1, sel_false, hb2, Bool.and_false, hb3, hshift, hb4, hsel5]
  rw [Nat.lor_comm, or_disjoint (show e5 * 2^10 + m10 < 2^15 by omega),
    Nat.mod_eq_of_lt (by omega)]

/-- `compress` on any finite pattern with magnitude strictly above the half-max
`65504` (`n_max`), up to and including infinity: the result is the half
infinity code `0x7C00` with the sign attached. -/
theorem compress_overflow (s M : Nat) (hs : s < 2) (h1 : n_max < M) (h2 : M ≤ n_inf) :
    compress (s * 2^31 + M) = s * 2^15 + 0x7C00 := by
  have hM31 : M < 2^31 := by
    have : n_inf < 2^31 := by rw [n_inf_val]; norm_num
    omega
  rw [compress_decomp s _ hs hM31]
  have hb1 : sgt n_min M = false := by
    apply sgt_le_false hM31
    rw [n_min_val]
    rw [n_max_val] at h1
    omega
  have hv2 : sel M n_inf (sgt n_inf M && sgt M n_max) = n_inf := by
    rcases eq_or_lt_of_le h2 with rfl | hlt
    · exact sel_same _ _
    · apply sel_of_true (by omega) (by rw [n_inf_val]; norm_num)
      rw [sgt_lt_true (by rw [n_inf_val]; norm_num) hlt,
        sgt_lt_true hM31 h1, Bool.and_self]
  have h3 : (sgt n_nan n_inf && sgt n_inf n_inf) = false := by decide
  have h4 : n_inf >>> shift = 0x3FC00 := by decide
  have h5 : sel 0x3FC00 (sub32 0x3FC00 d_max) (sgt 0x3FC00 c_max) = 0x23C00 := by decide
  have h6 : sel 0x23C00 (sub32 0x23C00 d_min) (sgt 0x23C00 c_sub) = 0x7C00 := by decide
  simp only [hb1, sel_false, hv2, h3, h4, h5, h6]
  rw [Nat.lor_comm, or_disjoint (by norm_num), Nat.mod_eq_of_lt (by omega)]

/-- `compress` on a NaN pattern with magnitude strictly below `n_nan`
(`0x7F802000`): canonicalised to the minimum half NaN `0x7C01` with sign. -/
theorem compress_nan_low (s M : Nat) (hs : s < 2) (h1 : n_inf < M) (h2 : M < n_nan) :
    compress (s * 2^31 + M) = s * 2^15 + 0x7C01 := by
  have hM31 : M < 2^31 := by
    have : n_nan < 2^31 := by rw [n_nan_val]; norm_num
    omega
  rw [compress_decomp s _ hs hM31]
  have hb1 : sgt n_min M = false := by
    apply sgt_le_false hM31
    rw [n_min_val]
    rw [n_inf_val] at h1
    omega
  have hb2 : sgt n_inf M = false := by
    apply sgt_le_false hM31
    omega
  have hb3a : sgt n_nan M = true := sgt_lt_true (by rw [n_nan_val]; norm_num) h2
  have hb3b : sgt M n_inf = true := sgt_lt_true hM31 h1
  have hsel3 : sel M n_nan (sgt n_nan M && sgt M n_inf) = n_nan := by
    apply sel_of_true (by omega) (by rw [n_nan_val]; norm_num)
    rw [hb3a, hb3b, Bool.and_self]
  have h4 : n_nan >>> shift = 0x3FC01 := by decide
  have h5 : sel 0x3FC01 (sub32 0x3FC01 d_max) (sgt 0x3FC01 c_max) = 0x23C01 := by decide
  have h6 : sel 0x23C01 (sub32 0x23C01 d_min) (sgt 0x23C01 c_sub) = 0x7C01 := by decide
  simp only [hb1, sel_false, hb2, Bool.false_and, hsel3, h4, h5, h6]
  rw [Nat.lor_comm, or_disjoint (by norm_num), Nat.mod_eq_of_lt (by omega)]

/-- `compress` on a NaN pattern with magnitude at least `n_nan`: not
canonicalised, the payload is shifted down and rebiased. -/
theorem compress_nan_high (s M : Nat) (hs : s < 2) (h1 : n_nan ≤ M) (hM31 : M < 2^31) :
    compress (s * 2^31 + M) = s * 2^15 + (M / 2^13 - 0x38000) := by
  rw [compress_decomp s _ hs hM31]
  have hn : (0x7F802000:Nat) ≤ M := by rw [n_nan_val] at h1; exact h1
  have hb1 : sgt n_min M = false := by
    apply sgt_le_false hM31
    rw [n_min_val]
    omega
  have hb2 : sgt n_inf M = false := by
    apply sgt_le_false hM31
    rw [n_inf_val]
    omega
  have hb3 : sgt n_nan M = false := by
    apply sgt_le_false hM31
    exact h1
  have hshift : M >>> shift = M / 2^13 := by
    rw [shift_val, Nat.shiftRight_eq_div_pow]
  have hd : M / 2^13 < 2^31 := by omega
  have hb4 : sgt (M / 2^13) c_max = true := by
    apply sgt_lt_true hd
    rw [c_max_val]
    omega
  have hsub4 : sub32 (M / 2^13) d_max = M / 2^13 - 0x1C000 := by
    rw [d_max_val]
    simp only [sub32]
    omega
  have hsel4 : sel (M / 2^13) (sub32 (M / 2^13) d_max) (sgt (M / 2^13) c_max)
      = M / 2^13 - 0x1C000 := by
    rw [sel_of_true (by omega) (sub32_lt _ _) hb4, hsub4]
  have hb5 : sgt (M / 2^13 - 0x1C000) c_sub = true := by
    apply sgt_lt_true (by omega)
    rw [c_sub_val]
    omega
  have hsub5 : sub32 (M / 2^13 - 0x1C000) d_min = M / 2^13 - 0x38000 := by
    rw [d_min_val]
    simp only [sub32]
    omega
  have hsel5 : sel (M / 2^13 - 0x1C000) (sub32 (M / 2^13 - 0x1C000) d_min)
      (sgt (M / 2^13 - 0x1C000) c_sub) = M / 2^13 - 0x38000 := by
    rw [sel_of_true (by omega) (sub32_lt _ _) hb5, hsub5]
  simp only [hb1, sel_false, hb2, Bool.false_and, hb3, hshift, hsel4, hsel5]
  rw [Nat.lor_comm, or_disjoint (show M / 2^13 - 0x38000 < 2^15 by omega),
    Nat.mod_eq_of_lt (by omega)]

/-- `decompress` on a zero/subnormal half code `k < 2^10`: the multiplicative
correction path yields the pattern of `k * 2^(-24)`. -/
theorem decompress_sub (s k : Nat) (hs : s < 2) (hk : k < 2^10) :
    decompress (s * 2^15 + k) = s * 2^31 + bits32ofSub k := by
  rw [decompress_decomp s k hs (by omega)]
  have hb1 : sgt k c_sub = false := by
    apply sgt_le_false (by rw [c_sub_val]; norm_num)
    rw [c_sub_val]
    omega
  have hb2 : sgt k c_max = false := by
    apply sgt_le_false (by rw [c_max_val]; norm_num)
    rw [c_max_val]
    omega
  have hmask : sgt c_nor k = true := by
    apply sgt_lt_true (by rw [c_nor_val]; norm_num)
    rw [c_nor_val]
    omega
  have hlt31 : bits32ofSub k < 2^31 :=
    lt_trans (bits32ofSub_lt k) (by norm_num)
  have hselr : sel ((k <<< shift) % 2^32) (bits32ofSub k) (sgt c_nor k) = bits32ofSub k :=
    sel_of_true (Nat.mod_lt _ (by norm_num)) (by omega) hmask
  simp only [hb1, sel_false, hb2, hselr]
  rw [Nat.lor_comm, or_disjoint hlt31]

/-- `decompress` on a normal half code `0x400 ≤ c ≤ 0x7BFF`. -/
theorem decompress_normal (s c : Nat) (hs : s < 2) (h4 : 0x400 ≤ c) (h7 : c ≤ 0x7BFF) :
    decompress (s * 2^15 + c) = s * 2^31 + (c + 0x1C000) * 2^13 := by
  rw [decompress_decomp s c hs (by omega)]
  have hb1 : sgt c c_sub = true := by
    apply sgt_lt_true (by omega)
    rw [c_sub_val]
    omega
  have hadd : add32 c d_min = c + 0x1C000 := by
    rw [d_min_val]
    simp only [add32]
    omega
  have hsel1 : sel c (add32 c d_min) (sgt c c_sub) = c + 0x1C000 := by
    rw [sel_of_true (by omega) (add32_lt _ _) hb1, hadd]
  have hb2 : sgt (c + 0x1C000) c_max = false := by
    apply sgt_le_false (by rw [c_max_val]; norm_num)
    rw [c_max_val]
    omega
  have hmask : sgt c_nor (c + 0x1C000) = false := by
    apply sgt_le_false (by omega)
    rw [c_nor_val]
    omega
  have hshl : ((c + 0x1C000) <<< shift) % 2^32 = (c + 0x1C000) * 2^13 := by
    rw [shift_val, Nat.shiftLeft_eq]
    omega
  simp only [hsel1, hb2, sel_false, hmask, hshl]
  rw [Nat.lor_comm, or_disjoint (show (c + 0x1C000) * 2^13 < 2^31 by omega)]

/-- `decompress` on an infinity/NaN half code `0x7C00 ≤ c ≤ 0x7FFF`. -/
theorem decompress_top (s c : Nat) (hs : s < 2) (h4 : 0x7C00 ≤ c) (h7 : c ≤ 0x7FFF) :
    decompress (s * 2^15 + c) = s * 2^31 + (c + 0x38000) * 2^13 := by
  rw [decompress_decomp s c hs (by omega)]
  have hb1 : sgt c c_sub = true := by
    apply sgt_lt_true (by omega)
    rw [c_sub_val]
    omega
  have hadd : add32 c d_min = c + 0x1C000 := by
    rw [d_min_val]
    simp only [add32]
    omega
  have hsel1 : sel c (add32 c d_min) (sgt c c_sub) = c + 0x1C000 := by
    rw [sel_of_true (by omega) (add32_lt _ _) hb1, hadd]
  have hb2 : sgt (c + 0x1C000) c_max = true := by
    apply sgt_lt_true (by omega)
    rw [c_max_val]
    omega
  have hadd2 : add32 (c + 0x1C000) d_max = c + 0x38000 := by
    rw [d_max_val]
    simp only [add32]
    omega
  have hsel2 : sel (c + 0x1C000) (add32 (c + 0x1C000) d_max) (sgt (c + 0x1C000) c_max)
      = c + 0x38000 := by
    rw [sel_of_true (by omega) (add32_lt _ _) hb2, hadd2]
  have hmask : sgt c_nor (c + 0x38000) = false := by
    apply sgt_le_false (by omega)
    rw [c_nor_val]
    omega
  have hshl : ((c + 0x38000) <<< shift) % 2^32 = (c + 0x38000) * 2^13 := by
    rw [shift_val, Nat.shiftLeft_eq]
    omega
  simp only [hsel1, hsel2, sel_false, hmask, hshl]
  rw [Nat.lor_comm, or_disjoint (show (c + 0x38000) * 2^13 < 2^31 by omega)]

end Float16Compressor

namespace Float16Compressor

theorem compress_lt (w : Nat) : compress w < 2^16 := by
  simp only [compress]
  exact Nat.mod_lt _ (by norm_num)

/-- `compress` is a left inverse of `decompress` on every 16-bit pattern. -/
theorem compress_decompress_id (h : Nat) (hh : h < 2^16) :
    compress (decompress h) = h := by
  have hs : h / 2^15 < 2 := by omega
  have hc : h % 2^15 < 2^15 := by omega
  have hrep : h = h / 2^15 * 2^15 + h % 2^15 := by omega
  rw [hrep]
  set s := h / 2^15
  set c := h % 2^15
  rcases Nat.lt_or_ge c (2^10) with h10 | h10
  · rw [decompress_sub s c hs h10, compress_sub s c hs h10]
  · rcases Nat.lt_or_ge c 0x7C00 with h7 | h7
    · rw [decompress_normal s c hs (by omega) (by omega)]
      have he5 : 1 ≤ c / 2^10 ∧ c / 2^10 ≤ 30 := by omega
      have hsplit : (c + 0x1C000) * 2^13 = (c / 2^10 + 112) * 2^23 + (c % 2^10) * 2^13 := by
        omega
      rw [hsplit, compress_normal s (c / 2^10) (c % 2^10) hs he5.1 he5.2 (by omega)]
      omega
    · rw [decompress_top s c hs h7 (by omega)]
      rcases Nat.eq_or_lt_of_le h7 with h7e | h7g
      · rw [← h7e, compress_overflow s _ hs (by rw [n_max_val]; norm_num)
          (by rw [n_inf_val]; norm_num)]
      · have hM : n_nan ≤ (c + 0x38000) * 2^13 := by
          rw [n_nan_val]
          omega
        rw [compress_nan_high s _ hs hM (by omega)]
        omega

end Float16Compressor

/-- C1: For every finite 32-bit float `x` with `|x| < 65504` that is exactly
representable in half precision, `Float16Compressor::decompress
(Float16Compressor::compress x) == x`.  Such `x` are exactly the values denoted
by a half-precision pattern `h` whose magnitude code `h % 2^15` is below the
half pattern `0x7BFF` of `65504`; `bits32ofHalf h` is the binary32 pattern of
that value. -/
theorem c1_half_roundtrip (h : Nat) (hh : h < 2^16) (hmag : h % 2^15 < 0x7BFF) :
    Float16Compressor.decompress (Float16Compressor.compress (bits32ofHalf h))
      = bits32ofHalf h := by
  have hs : h / 2^15 < 2 := by omega
  have hsmod : h / 2^15 % 2 = h / 2^15 := by omega
  have he5m : h / 2^10 % 2^5 = h / 2^10 % 32 := by norm_num
  simp only [bits32ofHalf, hsmod]
  rcases Nat.eq_zero_or_pos (h / 2^10 % 2^5) with he0 | hepos
  · rw [he0, if_pos rfl]
    have hm10 : h % 2^10 < 2^10 := by omega
    rw [Float16Compressor.compress_sub _ _ hs hm10,
      Float16Compressor.decompress_sub _ _ hs hm10]
  · have he31 : h / 2^10 % 2^5 ≤ 30 := by omega
    rw [if_neg (by omega), if_neg (by omega)]
    have hassoc : h / 2^15 * 2^31 + (h / 2^10 % 2^5 + 112) * 2^23 + h % 2^10 * 2^13
        = h / 2^15 * 2^31 + ((h / 2^10 % 2^5 + 112) * 2^23 + h % 2^10 * 2^13) := by
      omega
    rw [hassoc, Float16Compressor.compress_normal _ _ _ hs hepos he31 (by omega),
      Float16Compressor.decompress_normal _ _ hs (by omega) (by omega)]
    omega

theorem c1_half_roundtrip_witness :
    Float16Compressor.decompress (Float16Compressor.compress (bits32ofHalf 0x3C00))
      = bits32ofHalf 0x3C00 :=
  c1_half_roundtrip 0x3C00 (by decide) (by decide)

/-- C5 counterexample: `x = 65504` has `|x| ≥ 65504` and is finite, but
`compress` yields the half maximum-normal code `0x7BFF`, not the infinity code
`0x7C00`. -/
theorem c5_counterexample :
    Float16Compressor.compress 0x477FE000 = 0x7BFF ∧ (0x7BFF : Nat) ≠ 0x7C00 := by
  decide

/-- C5 (amended): every finite float with `|x| > 65504` (strictly), and infinity
itself, compresses to the half infinity code `0x7C00` with the sign attached;
and `compress(+∞)` decompresses back to `+∞`. -/
theorem c5_overflow_to_infinity :
    (∀ w, w < 2^32 → Float16Compressor.n_max < mag32 w → mag32 w ≤ Float16Compressor.n_inf →
      Float16Compressor.compress w = w / 2^31 * 2^15 + 0x7C00) ∧
    Float16Compressor.decompress (Float16Compressor.compress 0x7F800000) = 0x7F800000 := by
  constructor
  · intro w hw h1 h2
    simp only [mag32] at h1 h2
    have hrep : w = w / 2^31 * 2^31 + w % 2^31 := by omega
    conv_lhs => rw [hrep]
    rw [Float16Compressor.compress_overflow (w / 2^31) (w % 2^31) (by omega) h1 h2]
  · decide

theorem c5_overflow_to_infinity_witness :
    Float16Compressor.compress 0xC77FF000 = 0xC77FF000 / 2^31 * 2^15 + 0x7C00 :=
  c5_overflow_to_infinity.1 0xC77FF000 (by decide) (by decide) (by decide)

/-- C6 counterexample: the standard quiet NaN `0x7FC00000` is a 32-bit NaN, but
`compress` maps it to `0x7E00`, not the canonical minimum half NaN `0x7C01`
(its payload is merely shifted, not canonicalised). -/
theorem c6_counterexample :
    Float16Compressor.compress 0x7FC00000 = 0x7E00 ∧ (0x7E00 : Nat) ≠ 0x7C01 := by
  decide

/-- C6 (amended): a NaN input whose magnitude lies strictly below the minimum
half NaN threshold `n_nan = 0x7F802000` is canonicalised to the minimum half
NaN pattern `0x7C01` with the sign attached; and every NaN input decompresses
back to a 32-bit NaN. -/
theorem c6_nan_handling :
    ∀ w, w < 2^32 → isNaN32 w →
      (mag32 w < Float16Compressor.n_nan →
        Float16Compressor.compress w = w / 2^31 * 2^15 + 0x7C01) ∧
      isNaN32 (Float16Compressor.decompress (Float16Compressor.compress w)) := by
  intro w hw hn
  simp only [isNaN32, mag32] at hn
  have hs : w / 2^31 < 2 := by omega
  have hrep : w = w / 2^31 * 2^31 + w % 2^31 := by omega
  have hinf : Float16Compressor.n_inf < w % 2^31 := by
    rw [Float16Compressor.n_inf_val]
    exact hn
  constructor
  · intro hlow
    simp only [mag32] at hlow
    conv_lhs => rw [hrep]
    rw [Float16Compressor.compress_nan_low (w / 2^31) (w % 2^31) hs hinf hlow]
  · rcases Nat.lt_or_ge (w % 2^31) Float16Compressor.n_nan with hlow | hhigh
    · rw [hrep]
      rw [Float16Compressor.compress_nan_low (w / 2^31) (w % 2^31) hs hinf hlow,
        Float16Compressor.decompress_top (w / 2^31) 0x7C01 hs (by norm_num) (by norm_num)]
      simp only [isNaN32, mag32]
      omega
    · rw [hrep]
      rw [Float16Compressor.compress_nan_high (w / 2^31) (w % 2^31) hs hhigh (by omega)]
      rw [Float16Compressor.n_nan_val] at hhigh
      have hc1 : 0x7C00 ≤ w % 2^31 / 2^13 - 0x38000 := by omega
      have hc2 : w % 2^31 / 2^13 - 0x38000 ≤ 0x7FFF := by omega
      rw [Float16Compressor.decompress_top (w / 2^31) _ hs hc1 hc2]
      simp only [isNaN32, mag32]
      omega

theorem c6_nan_handling_witness :
    (Float16Compressor.compress 0x7F800001 = 0x7F800001 / 2^31 * 2^15 + 0x7C01) ∧
    isNaN32 (Float16Compressor.decompress (Float16Compressor.compress 0x7F800001)) := by
  have h := c6_nan_handling 0x7F800001 (by decide) (by decide)
  exact ⟨h.1 (by decide), h.2⟩

/-- `compress18` evaluated on any pattern whose exponent field lies in the
window `[0x70, 0x8F]` (so that the `uint32` subtraction does not wrap and the
rebiased exponent fits its 5-bit field). -/
theorem compress18_eval (w : Nat) (hw : w < 2^32)
    (h1 : 0x70 ≤ w / 2^23 % 2^8) (h2 : w / 2^23 % 2^8 < 0x90) :
    compress18 w = w / 2^31 * 2^17 + (w / 2^23 % 2^8 - 0x70) * 2^12 + w / 2^11 % 2^12 := by
  have hsig : (w &&& 0x7ff800) >>> 11 = w / 2^11 % 2^12 := by
    rw [show (0x7ff800:Nat) = (2^12 - 1) * 2^11 from rfl, and_field,
      Nat.shiftRight_eq_div_pow]
    omega
  have hexp : (w &&& 0x7f800000) >>> 23 = w / 2^23 % 2^8 := by
    rw [show (0x7f800000:Nat) = (2^8 - 1) * 2^23 from rfl, and_field,
      Nat.shiftRight_eq_div_pow]
    omega
  have hsub : sub32 (w / 2^23 % 2^8) 0x70 = w / 2^23 % 2^8 - 0x70 := by
    simp only [sub32]
    omega
  have hshl : ((w / 2^23 % 2^8 - 0x70) <<< 12) % 2^32 = (w / 2^23 % 2^8 - 0x70) * 2^12 := by
    rw [Nat.shiftLeft_eq]
    omega
  have hsgn : (w &&& 0x80000000) >>> 14 = w / 2^31 * 2^17 := by
    rw [show (0x80000000:Nat) = 2^31 from rfl, and_pow, Nat.shiftRight_eq_div_pow]
    omega
  have hor1 : (w / 2^11 % 2^12) ||| (w / 2^23 % 2^8 - 0x70) * 2^12
      = (w / 2^23 % 2^8 - 0x70) * 2^12 + w / 2^11 % 2^12 := by
    rw [Nat.lor_comm, or_disjoint (show w / 2^11 % 2^12 < 2^12 by omega)]
  have hor2 : ((w / 2^23 % 2^8 - 0x70) * 2^12 + w / 2^11 % 2^12) ||| w / 2^31 * 2^17
      = w / 2^31 * 2^17 + ((w / 2^23 % 2^8 - 0x70) * 2^12 + w / 2^11 % 2^12) := by
    rw [Nat.lor_comm, or_disjoint
      (show (w / 2^23 % 2^8 - 0x70) * 2^12 + w / 2^11 % 2^12 < 2^17 by omega)]
  simp only [compress18, hsig, hexp, hsub, hshl, hsgn, hor1, hor2]
  omega

/-- `decompress18` evaluated on an arbitrary input: the three fields are
repositioned and the bias is added back. -/
theorem decompress18_eval (t : Nat) :
    decompress18 t = t / 2^17 % 2 * 2^31 + (t / 2^12 % 2^5 + 0x70) * 2^23 + t % 2^12 * 2^11 := by
  have hsig : (t &&& 0xfff) <<< 11 = t % 2^12 * 2^11 := by
    rw [show (0xfff:Nat) = 2^12 - 1 from rfl, Nat.and_pow_two_sub_one_eq_mod,
      Nat.shiftLeft_eq]
  have hexp : (((t &&& 0x1f000) >>> 12) + 0x70) <<< 23 = (t / 2^12 % 2^5 + 0x70) * 2^23 := by
    rw [show (0x1f000:Nat) = (2^5 - 1) * 2^12 from rfl, and_field,
      Nat.shiftRight_eq_div_pow, Nat.shiftLeft_eq]
    omega
  have hsgn : (t &&& 0x20000) <<< 14 = t / 2^17 % 2 * 2^31 := by
    rw [show (0x20000:Nat) = 2^17 from rfl, and_pow, Nat.shiftLeft_eq]
    omega
  have hor1 : t % 2^12 * 2^11 ||| (t / 2^12 % 2^5 + 0x70) * 2^23
      = (t / 2^12 % 2^5 + 0x70) * 2^23 + t % 2^12 * 2^11 := by
    rw [Nat.lor_comm, or_disjoint (show t % 2^12 * 2^11 < 2^23 by omega)]
  have hor2 : ((t / 2^12 % 2^5 + 0x70) * 2^23 + t % 2^12 * 2^11) ||| t / 2^17 % 2 * 2^31
      = t / 2^17 % 2 * 2^31 + ((t / 2^12 % 2^5 + 0x70) * 2^23 + t % 2^12 * 2^11) := by
    rw [Nat.lor_comm, or_disjoint
      (show (t / 2^12 % 2^5 + 0x70) * 2^23 + t % 2^12 * 2^11 < 2^31 by omega)]
  simp only [decompress18, hsig, hexp, hsgn, hor1, hor2]
  omega

/-- C7: round-tripping through the 18-bit micro-float format is exact for every
pattern whose biased exponent field lies in the representable window
`[0x70, 0x8F]` and whose bottom 11 significand bits are zero. -/
theorem c7_micro_roundtrip (w : Nat) (hw : w < 2^32)
    (h1 : 0x70 ≤ w / 2^23 % 2^8) (h2 : w / 2^23 % 2^8 < 0x90) (h3 : w % 2^11 = 0) :
    decompress18 (compress18 w) = w := by
  rw [compress18_eval w hw h1 h2, decompress18_eval]
  omega

theorem c7_micro_roundtrip_witness :
    decompress18 (compress18 0xC2800000) = 0xC2800000 :=
  c7_micro_roundtrip 0xC2800000 (by decide) (by decide) (by decide) (by decide)

/-- C8 counterexample: for the input `0x35800000` (the float `2^(-20)`, whose
exponent field `0x6B` lies below the bias offset `0x70`), the `uint32`
subtraction wraps and `compress18` returns `0xFFFFB000`, which has bits far
above bit 17 set. -/
theorem c8_counterexample :
    compress18 0x35800000 = 0xFFFFB000 ∧ ¬(compress18 0x35800000 < 2^18) := by
  decide

/-- C8 (amended): for inputs whose exponent field lies in the window
`[0x70, 0x8F]`, `compress18` packs the top 12 significand bits into bits
`[11:0]`, the rebiased exponent into bits `[16:12]` and the sign into bit 17,
and all bits above bit 17 are zero; outside that window the packing wraps. -/
theorem c8_layout (w : Nat) (hw : w < 2^32)
    (h1 : 0x70 ≤ w / 2^23 % 2^8) (h2 : w / 2^23 % 2^8 < 0x90) :
    compress18 w
        = w / 2^31 * 2^17 + (w / 2^23 % 2^8 - 0x70) * 2^12 + w / 2^11 % 2^12 ∧
      compress18 w < 2^18 := by
  refine ⟨compress18_eval w hw h1 h2, ?_⟩
  rw [compress18_eval w hw h1 h2]
  omega

theorem c8_layout_witness :
    (compress18 0xC2800000
        = 0xC2800000 / 2^31 * 2^17 + (0xC2800000 / 2^23 % 2^8 - 0x70) * 2^12
          + 0xC2800000 / 2^11 % 2^12 ∧
      compress18 0xC2800000 < 2^18) :=
  c8_layout 0xC2800000 (by decide) (by decide) (by decide)

theorem sub32_small {a b : Nat} (ha : a < 2^32) (h : b ≤ a) : sub32 a b = a - b := by
  simp only [sub32]
  omega

theorem add32_small {a b : Nat} (h : a + b < 2^32) : add32 a b = a + b := by
  simp only [add32]
  omega

theorem sgt_irrefl (a : Nat) : sgt a a = false := by
  simp [sgt]

theorem sgt_pos_neg {a b : Nat} (ha : 2^31 ≤ a) (ha2 : a < 2^32) (hb : b < 2^31) :
    sgt a b = false :=
  sgt_false (by rw [toSigned_of_ge ha, toSigned_of_lt hb]; omega)

theorem sgt_neg_pos {a b : Nat} (ha : a < 2^31) (hb : 2^31 ≤ b) (hb2 : b < 2^32) :
    sgt a b = true :=
  sgt_true (by rw [toSigned_of_lt ha, toSigned_of_ge hb]; omega)

theorem sgt_negs {a b : Nat} (ha : 2^31 ≤ a) (ha2 : a < 2^32) (hb : 2^31 ≤ b) (hb2 : b < 2^32) :
    sgt a b = decide (b < a) := by
  rcases Nat.lt_or_ge b a with h | h
  · rw [sgt_true (by rw [toSigned_of_ge ha, toSigned_of_ge hb]; omega)]
    simp [h]
  · rw [sgt_false (by rw [toSigned_of_ge ha, toSigned_of_ge hb]; omega)]
    simp
    omega

theorem sgt_intmin_true {a : Nat} (ha : a < 2^32) (hne : a ≠ 2^31) :
    sgt a (2^31) = true := by
  apply sgt_true
  rw [toSigned_of_ge (le_refl _)]
  rcases Nat.lt_or_ge a (2^31) with h | h
  · rw [toSigned_of_lt h]
    omega
  · rw [toSigned_of_ge h]
    omega

theorem sle_nonneg {a b : Nat} (ha : a < 2^31) (hb : b < 2^31) :
    sle a b = decide (a ≤ b) := by
  rcases Nat.lt_or_ge b a with h | h
  · rw [sle_false (by rw [toSigned_of_lt ha, toSigned_of_lt hb]; exact_mod_cast h)]
    simp
    omega
  · rw [sle_true (by rw [toSigned_of_lt ha, toSigned_of_lt hb]; exact_mod_cast h)]
    simp
    omega

namespace FloatCompressor

theorem signF_val : signF = 2^31 := rfl
theorem absF_val : absF = 2^31 - 1 := rfl

theorem mk32_f_min (a b c p : Nat) : (mk32 a b c p).f_min = a := rfl
theorem mk32_f_eps (a b c p : Nat) : (mk32 a b c p).f_eps = b := rfl
theorem mk32_f_max (a b c p : Nat) : (mk32 a b c p).f_max = c := rfl
theorem mk32_negatives (a b c p : Nat) : (mk32 a b c p).negatives = sgt 0 a := rfl
theorem mk32_shift (a b c p : Nat) : (mk32 a b c p).shift = 23 - p := rfl

/-- The fields of a lossless (`precision = 23`) configuration. -/
theorem mk32_23 (a b c : Nat) :
    (mk32 a b c 23).lossless = true ∧
    (mk32 a b c 23).c_max = c ^^^ signF ∧
    (mk32 a b c 23).c_zero = signF ∧
    (mk32 a b c 23).p_delta = sub32 (sub32 (b ^^^ signF) signF) 1 ∧
    (mk32 a b c 23).n_delta = sub32 (sub32 b (c ^^^ signF)) 1 := by
  refine ⟨rfl, rfl, rfl, rfl, rfl⟩

/-- The numeric values of the derived lossless fields under a valid
configuration: `c_max` is `f_max + 2^31`, `p_delta` is `f_eps - 1` and
`n_delta` is `f_eps + 2^31 - f_max - 1`. -/
theorem mk32_23_values (a b c : Nat) (hb1 : 1 ≤ b) (hbc : b < c) (hc : c < 2^31) :
    (mk32 a b c 23).c_max = c + 2^31 ∧
    (mk32 a b c 23).p_delta = b - 1 ∧
    (mk32 a b c 23).n_delta = b + 2^31 - c - 1 := by
  obtain ⟨-, h1, h2, h3, h4⟩ := mk32_23 a b c
  have hcx : c ^^^ signF = c + 2^31 := by
    rw [signF_val, xor_top (by omega)]
    omega
  have hbx : b ^^^ signF = b + 2^31 := by
    rw [signF_val, xor_top (by omega)]
    omega
  refine ⟨by rw [h1, hcx], ?_, ?_⟩
  · rw [h3, hbx, signF_val]
    rw [show sub32 (b + 2^31) (2^31) = b from by rw [sub32_small (by omega) (by omega)]; omega]
    rw [sub32_small (by omega) hb1]
  · rw [h4, hcx]
    simp only [sub32]
    omega

/-- The fields of a lossy (`precision < 23`) configuration. -/
theorem mk32_lossy (a b c p : Nat) (hp : p < 23) :
    (mk32 a b c p).lossless = false ∧
    (mk32 a b c p).c_max = c >>> (23 - p) ∧
    (mk32 a b c p).c_zero = 0 ∧
    (mk32 a b c p).p_delta = sub32 (b >>> (23 - p)) 1 ∧
    (mk32 a b c p).n_delta = sub32 (sub32 ((b ^^^ signF) >>> (23 - p)) (c >>> (23 - p))) 1 := by
  have hne : (23 - p == 0) = false := by
    simp
    omega
  simp only [mk32, hne, Bool.false_eq_true, if_false]
  refine ⟨trivial, trivial, trivial, ?_, trivial⟩
  generalize b >>> (23 - p) = x
  simp only [sub32]
  omega

end FloatCompressor

namespace FloatCompressor

theorem validFields_mk32 (a b c p : Nat) (hv : ValidCfg a b c) :
    ValidFields (mk32 a b c p) := by
  obtain ⟨h1, h2, h3, h4⟩ := hv
  exact ⟨h1, rfl, h2, h3, h4⟩

theorem clamp_last {fc : FloatCompressor} {v : Nat} (hv : v < 2^32) (he : fc.f_eps < 2^31) :
    v &&& negMask (sle fc.f_eps (v &&& absF)) = if fc.f_eps ≤ v % 2^31 then v else 0 := by
  rw [absF_val, Nat.and_pow_two_sub_one_eq_mod, sle_nonneg he (by omega), and_negMask hv]
  simp

theorem clamp_mx_pos {fc : FloatCompressor} {w : Nat} (hw : w < 2^31) :
    (if fc.negatives then sel fc.f_max fc.f_min (sgt 0 w) else fc.f_max) = fc.f_max := by
  rw [sgt_le_false hw (Nat.zero_le w), Float16Compressor.sel_false]
  exact ite_self _

theorem clamp_mx_neg_t {fc : FloatCompressor} {w : Nat} (hneg : fc.negatives = true)
    (hw1 : 2^31 ≤ w) (hw : w < 2^32) (hmax : fc.f_max < 2^32) (hmin : fc.f_min < 2^32) :
    (if fc.negatives then sel fc.f_max fc.f_min (sgt 0 w) else fc.f_max) = fc.f_min := by
  rw [hneg, if_pos rfl, sel_of_true hmax hmin (sgt_neg_pos (by norm_num) hw1 hw)]

theorem clamp_mx_neg_f {fc : FloatCompressor} (hneg : fc.negatives = false) :
    (if fc.negatives then sel fc.f_max fc.f_min (sgt 0 w) else fc.f_max) = fc.f_max := by
  rw [hneg]
  simp

/-- If `min = 0`, negatives are not representable. -/
theorem negatives_false_of_min0 {fc : FloatCompressor} (hneg : fc.negatives = sgt 0 fc.f_min)
    (h0 : fc.f_min = 0) : fc.negatives = false := by
  rw [hneg, h0]
  decide

theorem negatives_true_of_minneg {fc : FloatCompressor} (hneg : fc.negatives = sgt 0 fc.f_min)
    (h0 : 2^31 ≤ fc.f_min) (h1 : fc.f_min < 2^32) : fc.negatives = true := by
  rw [hneg]
  exact sgt_neg_pos (by norm_num) h0 h1

/-- Dead zone: any input of magnitude strictly below `epsilon` clamps to exact
positive zero. -/
theorem clamp_dead (fc : FloatCompressor) (hv : ValidFields fc) (w : Nat) (hw : w < 2^32)
    (hd : w % 2^31 < fc.f_eps) : clamp fc w = 0 := by
  obtain ⟨hmin, hneg, he1, hef, hfm⟩ := hv
  have hfm31 : fc.f_max < 2^31 := by omega
  have he31 : fc.f_eps < 2^31 := by omega
  simp only [clamp]
  rcases Nat.lt_or_ge w (2^31) with hwp | hwn
  · rw [clamp_mx_pos hwp, sel_of_false (sgt_le_false hfm31 (by omega)),
      clamp_last (by omega) he31, if_neg (by omega)]
  · rcases hmin with h0 | ⟨hm1, hm2⟩
    · rw [clamp_mx_neg_f (negatives_false_of_min0 hneg h0),
        sel_of_false (sgt_pos_neg hwn hw hfm31), clamp_last hw he31, if_neg (by omega)]
    · have hmlt : fc.f_min < 2^32 := by omega
      rw [clamp_mx_neg_t (negatives_true_of_minneg hneg hm1 hmlt) hwn hw (by omega) hmlt]
      rw [sgt_negs hwn hw hm1 hmlt]
      rcases Nat.lt_or_ge fc.f_min w with hlt | hle
      · rw [sel_of_true hw hmlt (by simp [hlt]), clamp_last hmlt he31, if_neg (by omega)]
      · rw [sel_of_false (by simp; omega), clamp_last hw he31, if_neg (by omega)]

/-- The output of `clamp` always lies in `ClampOut`. -/
theorem clamp_mem (fc : FloatCompressor) (hv : ValidFields fc) (w : Nat) (hw : w < 2^32) :
    ClampOut fc (clamp fc w) := by
  obtain ⟨hmin, hneg, he1, hef, hfm⟩ := hv
  have hfm31 : fc.f_max < 2^31 := by omega
  have he31 : fc.f_eps < 2^31 := by omega
  simp only [clamp]
  rcases Nat.lt_or_ge w (2^31) with hwp | hwn
  · -- positive (or +0 / positive NaN) input: mx = f_max
    rw [clamp_mx_pos hwp]
    rcases Nat.lt_or_ge fc.f_max w with hgt | hle
    · -- clamped to max
      rw [sel_of_true (by omega) (by omega) (sgt_lt_true hwp hgt),
        clamp_last (by omega) he31, if_pos (by omega)]
      right; left
      exact ⟨by omega, hfm31, le_of_lt hef, le_refl _⟩
    · -- kept
      rw [sel_of_false (sgt_le_false hfm31 hle), clamp_last (by omega) he31]
      rcases Nat.lt_or_ge (w % 2^31) fc.f_eps with hdead | hkeep
      · rw [if_neg (by omega)]
        left; rfl
      · rw [if_pos (by omega)]
        right; left
        exact ⟨by omega, hwp, by omega, hle⟩
  · -- negative input
    rcases hmin with h0 | ⟨hm1, hm2⟩
    · -- negatives not representable: pass through the max test, dead-zone only
      rw [clamp_mx_neg_f (negatives_false_of_min0 hneg h0),
        sel_of_false (sgt_pos_neg hwn hw hfm31), clamp_last hw he31]
      rcases Nat.lt_or_ge (w % 2^31) fc.f_eps with hdead | hkeep
      · rw [if_neg (by omega)]
        left; rfl
      · rw [if_pos (by omega)]
        right; right
        refine ⟨hwn, hw, by omega, ?_⟩
        intro hcontra
        rw [negatives_false_of_min0 hneg h0] at hcontra
        cases hcontra
    · -- negatives representable: mx = f_min
      have hmlt : fc.f_min < 2^32 := by omega
      have hnegt := negatives_true_of_minneg hneg hm1 hmlt
      rw [clamp_mx_neg_t hnegt hwn hw (by omega) hmlt, sgt_negs hwn hw hm1 hmlt]
      rcases Nat.lt_or_ge fc.f_min w with hlt | hle
      · -- clamped to min, then dead-zone check on min itself
        rw [sel_of_true hw hmlt (by simp [hlt]), clamp_last hmlt he31]
        rcases Nat.lt_or_ge (fc.f_min % 2^31) fc.f_eps with hdead | hkeep
        · rw [if_neg (by omega)]
          left; rfl
        · rw [if_pos (by omega)]
          right; right
          exact ⟨hm1, hmlt, by omega, fun _ => le_refl _⟩
      · -- kept
        rw [sel_of_false (by simp; omega), clamp_last hw he31]
        rcases Nat.lt_or_ge (w % 2^31) fc.f_eps with hdead | hkeep
        · rw [if_neg (by omega)]
          left; rfl
        · rw [if_pos (by omega)]
          right; right
          exact ⟨hwn, hw, by omega, fun _ => hle⟩

/-- `clamp` fixes every value in `ClampOut`; with `clamp_mem` this makes
`clamp` idempotent. -/
theorem clamp_fixed (fc : FloatCompressor) (hv : ValidFields fc) (z : Nat)
    (hz : ClampOut fc z) : clamp fc z = z := by
  obtain ⟨hmin, hneg, he1, hef, hfm⟩ := hv
  have hfm31 : fc.f_max < 2^31 := by omega
  have he31 : fc.f_eps < 2^31 := by omega
  simp only [clamp]
  rcases hz with rfl | ⟨hz0, hz31, hze, hzm⟩ | ⟨hz31, hz32, hze, hzmin⟩
  · -- z = 0
    rw [clamp_mx_pos (by norm_num), sel_of_false (sgt_le_false hfm31 (by omega)),
      clamp_last (by norm_num) he31, if_neg (by omega)]
  · -- positive in-range
    rw [clamp_mx_pos hz31, sel_of_false (sgt_le_false hfm31 hzm),
      clamp_last (by omega) he31, if_pos (by omega)]
  · -- negative with magnitude at least epsilon
    rcases hmin with h0 | ⟨hm1, hm2⟩
    · rw [clamp_mx_neg_f (negatives_false_of_min0 hneg h0),
        sel_of_false (sgt_pos_neg hz31 hz32 hfm31), clamp_last hz32 he31,
        if_pos (by omega)]
    · have hmlt : fc.f_min < 2^32 := by omega
      have hnegt := negatives_true_of_minneg hneg hm1 hmlt
      have hle := hzmin hnegt
      rw [clamp_mx_neg_t hnegt hz31 hz32 (by omega) hmlt, sgt_negs hz31 hz32 hm1 hmlt,
        sel_of_false (by simp; omega), clamp_last hz32 he31, if_pos (by omega)]

end FloatCompressor

namespace FloatCompressor

theorem compress_ll (fc : FloatCompressor) (hll : fc.lossless = true) (w : Nat) :
    compress fc w =
      (let u0 := clamp fc w ^^^ signF
       let u1 := if fc.negatives then sel u0 (sub32 u0 fc.n_delta) (sgt u0 fc.c_max) else u0
       let u2 := sel u1 (sub32 u1 fc.p_delta) (sgt u1 fc.c_zero)
       u2 ^^^ signF) := by
  simp only [compress, hll, if_true]

theorem decompress_ll (fc : FloatCompressor) (hll : fc.lossless = true) (w : Nat) :
    decompress fc w =
      (let u0 := (w % 2^32) ^^^ signF
       let u1 := sel u0 (add32 u0 fc.p_delta) (sgt u0 fc.c_zero)
       let u2 := if fc.negatives then sel u1 (add32 u1 fc.n_delta) (sgt u1 fc.c_max) else u1
       u2 ^^^ signF) := by
  simp only [decompress, hll, if_true]

/-- The lossless (`precision = 23`) round trip is the identity on every value
`clamp` can output. -/
theorem roundtrip_ll (a b c : Nat) (hv : ValidCfg a b c) (z : Nat)
    (hz : ClampOut (mk32 a b c 23) z) :
    (mk32 a b c 23).decompress ((mk32 a b c 23).compress z) = z := by
  obtain ⟨hm0, hb1, hbc, hcM⟩ := hv
  have hvf : ValidFields (mk32 a b c 23) := validFields_mk32 a b c 23 ⟨hm0, hb1, hbc, hcM⟩
  obtain ⟨hcm, hpd, hnd⟩ := mk32_23_values a b c (by omega) hbc (by omega)
  have hll : (mk32 a b c 23).lossless = true := (mk32_23 a b c).1
  have hcz : (mk32 a b c 23).c_zero = signF := (mk32_23 a b c).2.2.1
  have hclamp : clamp (mk32 a b c 23) z = z := clamp_fixed _ hvf z hz
  set fc := mk32 a b c 23 with hfc
  rw [compress_ll fc hll, hclamp]
  rcases hz with rfl | ⟨hz0, hz31, hze, hzm⟩ | ⟨hz31, hz32, hze, hzmin⟩
  · -- z = 0
    have h0 : (0 : Nat) ^^^ signF = 2^31 := by
      rw [signF_val, Nat.zero_xor]
    have hcond1 : sgt (2^31) fc.c_max = false := by
      rw [hcm, sgt_negs (by norm_num) (by norm_num) (by omega) (by omega)]
      simp
    have hcond2 : sgt (2^31) fc.c_zero = false := by
      rw [hcz, signF_val]
      exact sgt_irrefl _
    have hfin : (2:Nat)^31 ^^^ signF = 0 := by
      rw [signF_val, Nat.xor_self]
    simp only [h0, hcond1, Float16Compressor.sel_false, ite_self, hcond2, hfin]
    rw [decompress_ll fc hll]
    simp only [Nat.zero_mod, h0, hcond2, Float16Compressor.sel_false, hcond1, ite_self, hfin]
  · -- positive in-range: f_eps ≤ z ≤ f_max
    have hfe : fc.f_eps = b := rfl
    have hfm : fc.f_max = c := rfl
    rw [hfe] at hze
    rw [hfm] at hzm
    have h0 : z ^^^ signF = z + 2^31 := by
      rw [signF_val, xor_top (by omega)]
      omega
    have hcond1 : sgt (z + 2^31) fc.c_max = false := by
      rw [hcm, sgt_negs (by omega) (by omega) (by omega) (by omega)]
      simp
      omega
    have hcond2 : sgt (z + 2^31) fc.c_zero = true := by
      rw [hcz, signF_val]
      exact sgt_intmin_true (by omega) (by omega)
    have hsub : sub32 (z + 2^31) fc.p_delta = z + 2^31 - (b - 1) := by
      rw [hpd, sub32_small (by omega) (by omega)]
    have hsel : sel (z + 2^31) (sub32 (z + 2^31) fc.p_delta) (sgt (z + 2^31) fc.c_zero)
        = z + 2^31 - (b - 1) := by
      rw [sel_of_true (by omega) (sub32_lt _ _) hcond2, hsub]
    have hfin : (z + 2^31 - (b - 1)) ^^^ signF = z + 1 - b := by
      rw [signF_val, xor_top (by omega)]
      omega
    simp only [h0, hcond1, Float16Compressor.sel_false, ite_self, hsel, hfin]
    rw [decompress_ll fc hll]
    have hy : (z + 1 - b) % 2^32 = z + 1 - b := by omega
    have h0' : (z + 1 - b) ^^^ signF = z + 1 - b + 2^31 := by
      rw [signF_val, xor_top (by omega)]
      omega
    have hcond2' : sgt (z + 1 - b + 2^31) fc.c_zero = true := by
      rw [hcz, signF_val]
      exact sgt_intmin_true (by omega) (by omega)
    have hadd : add32 (z + 1 - b + 2^31) fc.p_delta = z + 2^31 := by
      rw [hpd, add32_small (by omega)]
      omega
    have hsel' : sel (z + 1 - b + 2^31) (add32 (z + 1 - b + 2^31) fc.p_delta)
        (sgt (z + 1 - b + 2^31) fc.c_zero) = z + 2^31 := by
      rw [sel_of_true (by omega) (add32_lt _ _) hcond2', hadd]
    have hfin' : (z + 2^31) ^^^ signF = z := by
      rw [signF_val, xor_top (by omega)]
      omega
    simp only [hy, h0', hsel', hcond1, Float16Compressor.sel_false, ite_self, hfin']
  · -- negative with magnitude at least epsilon
    have hfe : fc.f_eps = b := rfl
    have hfmin : fc.f_min = a := rfl
    rw [hfe] at hze
    rw [hfmin] at hzmin
    have h0 : z ^^^ signF = z - 2^31 := by
      rw [signF_val, xor_top (by omega)]
      omega
    rcases Bool.eq_false_or_eq_true fc.negatives with hnegb | hnegb
    swap
    · -- negatives not representable: the n_delta steps are skipped
      have hM1 : z - 2^31 < 2^31 := by omega
      have hcond2 : sgt (z - 2^31) fc.c_zero = true := by
        rw [hcz, signF_val]
        exact sgt_intmin_true (by omega) (by omega)
      have hsub : sub32 (z - 2^31) fc.p_delta = z - 2^31 + 1 - b := by
        rw [hpd, sub32_small (by omega) (by omega)]
        omega
      have hsel : sel (z - 2^31) (sub32 (z - 2^31) fc.p_delta) (sgt (z - 2^31) fc.c_zero)
          = z - 2^31 + 1 - b := by
        rw [sel_of_true (by omega) (sub32_lt _ _) hcond2, hsub]
      have hfin : (z - 2^31 + 1 - b) ^^^ signF = z - 2^31 + 1 - b + 2^31 := by
        rw [signF_val, xor_top (by omega)]
        omega
      simp only [hnegb, Bool.false_eq_true, if_false, h0, hsel, hfin]
      rw [decompress_ll fc hll]
      have hy : (z - 2^31 + 1 - b + 2^31) % 2^32 = z - 2^31 + 1 - b + 2^31 := by omega
      have h0' : (z - 2^31 + 1 - b + 2^31) ^^^ signF = z - 2^31 + 1 - b := by
        rw [signF_val, xor_top (by omega)]
        omega
      have hcond2' : sgt (z - 2^31 + 1 - b) fc.c_zero = true := by
        rw [hcz, signF_val]
        exact sgt_intmin_true (by omega) (by omega)
      have hadd : add32 (z - 2^31 + 1 - b) fc.p_delta = z - 2^31 := by
        rw [hpd, add32_small (by omega)]
        omega
      have hsel' : sel (z - 2^31 + 1 - b) (add32 (z - 2^31 + 1 - b) fc.p_delta)
          (sgt (z - 2^31 + 1 - b) fc.c_zero) = z - 2^31 := by
        rw [sel_of_true (by omega) (add32_lt _ _) hcond2', hadd]
      have hfin' : (z - 2^31) ^^^ signF = z := by
        rw [signF_val, xor_top (by omega)]
        omega
      simp only [hy, h0', hsel', hnegb, Bool.false_eq_true, if_false, hfin']
    · -- negatives representable: z ≤ f_min = a, and a is a negative pattern
      have hale := hzmin hnegb
      have ha31 : 2^31 ≤ a := by
        rcases hm0 with h00 | ⟨ha1, ha2⟩
        · exfalso
          have : fc.negatives = false :=
            negatives_false_of_min0 (by rw [hfc]; exact rfl) (by rw [hfmin, h00])
          rw [hnegb] at this
          cases this
        · exact ha1
      have haM : a ≤ 2^31 + 0x7F800000 := by
        rcases hm0 with h00 | ⟨ha1, ha2⟩
        · omega
        · exact ha2
      have hMb : b ≤ z - 2^31 := hze
      have hM1 : z - 2^31 ≤ 0x7F800000 := by omega
      have hcond1 : sgt (z - 2^31) fc.c_max = true := by
        rw [hcm]
        exact sgt_neg_pos (by omega) (by omega) (by omega)
      have hsub1 : sub32 (z - 2^31) fc.n_delta = (z - 2^31 + c + 1 - b + 2^31) % 2^32 := by
        rw [hnd]
        simp only [sub32]
        omega
      have hsel1 : sel (z - 2^31) (sub32 (z - 2^31) fc.n_delta) (sgt (z - 2^31) fc.c_max)
          = (z - 2^31 + c + 1 - b + 2^31) % 2^32 := by
        rw [sel_of_true (by omega) (sub32_lt _ _) hcond1, hsub1]
      have hcond2 : sgt ((z - 2^31 + c + 1 - b + 2^31) % 2^32) fc.c_zero = true := by
        rw [hcz, signF_val]
        exact sgt_intmin_true (by omega) (by omega)
      have hsub2 : sub32 ((z - 2^31 + c + 1 - b + 2^31) % 2^32) fc.p_delta
          = (z - 2^31 + c + 2 - 2*b + 2^31) % 2^32 := by
        rw [hpd]
        simp only [sub32]
        omega
      have hsel2 : sel ((z - 2^31 + c + 1 - b + 2^31) % 2^32)
          (sub32 ((z - 2^31 + c + 1 - b + 2^31) % 2^32) fc.p_delta)
          (sgt ((z - 2^31 + c + 1 - b + 2^31) % 2^32) fc.c_zero)
          = (z - 2^31 + c + 2 - 2*b + 2^31) % 2^32 := by
        rw [sel_of_true (Nat.mod_lt _ (by norm_num)) (sub32_lt _ _) hcond2, hsub2]
      have hfin : ((z - 2^31 + c + 2 - 2*b + 2^31) % 2^32) ^^^ signF
          = z - 2^31 + c + 2 - 2*b := by
        rw [signF_val, xor_top (Nat.mod_lt _ (by norm_num))]
        omega
      simp only [hnegb, if_true, h0, hsel1, hsel2, hfin]
      rw [decompress_ll fc hll]
      have hy : (z - 2^31 + c + 2 - 2*b) % 2^32 = z - 2^31 + c + 2 - 2*b := by omega
      have h0' : (z - 2^31 + c + 2 - 2*b) ^^^ signF
          = (z - 2^31 + c + 2 - 2*b + 2^31) % 2^32 := by
        rw [signF_val, xor_top (by omega)]
      have hcond2' : sgt ((z - 2^31 + c + 2 - 2*b + 2^31) % 2^32) fc.c_zero = true := by
        rw [hcz, signF_val]
        exact sgt_intmin_true (by omega) (by omega)
      have hadd : add32 ((z - 2^31 + c + 2 - 2*b + 2^31) % 2^32) fc.p_delta
          = (z - 2^31 + c + 1 - b + 2^31) % 2^32 := by
        rw [hpd]
        simp only [add32]
        omega
      have hsel1' : sel ((z - 2^31 + c + 2 - 2*b + 2^31) % 2^32)
          (add32 ((z - 2^31 + c + 2 - 2*b + 2^31) % 2^32) fc.p_delta)
          (sgt ((z - 2^31 + c + 2 - 2*b + 2^31) % 2^32) fc.c_zero)
          = (z - 2^31 + c + 1 - b + 2^31) % 2^32 := by
        rw [sel_of_true (Nat.mod_lt _ (by norm_num)) (add32_lt _ _) hcond2', hadd]
      have hcond1' : sgt ((z - 2^31 + c + 1 - b + 2^31) % 2^32) fc.c_max = true := by
        rw [hcm]
        rcases Nat.lt_or_ge (z - 2^31 + c + 1 - b) (2^31) with hD | hD
        · have hq : (z - 2^31 + c + 1 - b + 2^31) % 2^32 = z - 2^31 + c + 1 - b + 2^31 := by
            omega
          rw [hq, sgt_negs (by omega) (by omega) (by omega) (by omega)]
          simp
          omega
        · have hq : (z - 2^31 + c + 1 - b + 2^31) % 2^32 = z - 2^31 + c + 1 - b - 2^31 := by
            omega
          rw [hq]
          exact sgt_neg_pos (by omega) (by omega) (by omega)
      have hadd2 : add32 ((z - 2^31 + c + 1 - b + 2^31) % 2^32) fc.n_delta = z - 2^31 := by
        rw [hnd]
        simp only [add32]
        omega
      have hsel2' : sel ((z - 2^31 + c + 1 - b + 2^31) % 2^32)
          (add32 ((z - 2^31 + c + 1 - b + 2^31) % 2^32) fc.n_delta)
          (sgt ((z - 2^31 + c + 1 - b + 2^31) % 2^32) fc.c_max) = z - 2^31 := by
        rw [sel_of_true (Nat.mod_lt _ (by norm_num)) (add32_lt _ _) hcond1', hadd2]
      have hfin' : (z - 2^31) ^^^ signF = z := by
        rw [signF_val, xor_top (by omega)]
        omega
      simp only [hy, h0', hsel1', hnegb, if_true, hsel2', hfin']

end FloatCompressor

theorem ordKey_pos {w : Nat} (h : w < 2^31) : ordKey w = 2^31 + w := if_pos h

theorem ordKey_neg {w : Nat} (h : 2^31 ≤ w) : ordKey w = 2^32 - w := if_neg (by omega)

/-- A value satisfying the C2/C3 hypotheses (`min ≤ x ≤ max` in float order,
`|x| ≥ epsilon`) is a fixed point candidate of `clamp`. -/
theorem clampOut_of_range (a b c p : Nat) (hv : ValidCfg a b c) (x : Nat) (hx : x < 2^32)
    (hmin : fle a x) (hmax : fle x c) (heps : b ≤ mag32 x) :
    FloatCompressor.ClampOut (FloatCompressor.mk32 a b c p) x := by
  obtain ⟨hm0, hb1, hbc, hcM⟩ := hv
  obtain ⟨hna, hnx, hord1⟩ := hmin
  obtain ⟨-, hnc, hord2⟩ := hmax
  simp only [mag32] at heps
  rcases Nat.lt_or_ge x (2^31) with hx31 | hx31
  · right; left
    rw [ordKey_pos hx31, ordKey_pos (by omega)] at hord2
    refine ⟨by omega, hx31, ?_, ?_⟩
    · rw [FloatCompressor.mk32_f_eps]
      omega
    · rw [FloatCompressor.mk32_f_max]
      omega
  · rw [ordKey_neg hx31] at hord1
    rcases hm0 with h00 | ⟨ha1, ha2⟩
    · exfalso
      rw [h00, ordKey_pos (by norm_num)] at hord1
      have : x = 2^31 := by omega
      subst this
      norm_num at heps
      omega
    · right; right
      rw [ordKey_neg ha1] at hord1
      refine ⟨hx31, hx, ?_, fun _ => ?_⟩
      · rw [FloatCompressor.mk32_f_eps]
        omega
      · rw [FloatCompressor.mk32_f_min]
        omega

/-- C2: for a `FloatCompressor` constructed with `precision = 23` (lossless
mode) under the precondition `min ≤ 0 < epsilon < max`, every `x` with
`min ≤ x ≤ max` (float order) and `|x| ≥ epsilon` round-trips bit for bit. -/
theorem c2_lossless_roundtrip (f_min f_eps f_max : Nat) (hv : ValidCfg f_min f_eps f_max)
    (x : Nat) (hx : x < 2^32) (hmin : fle f_min x) (hmax : fle x f_max)
    (heps : f_eps ≤ mag32 x) :
    (FloatCompressor.mk32 f_min f_eps f_max 23).decompress
      ((FloatCompressor.mk32 f_min f_eps f_max 23).compress x) = x :=
  FloatCompressor.roundtrip_ll f_min f_eps f_max hv x
    (clampOut_of_range f_min f_eps f_max 23 hv x hx hmin hmax heps)

theorem c2_lossless_roundtrip_witness :
    (FloatCompressor.mk32 0xC77FE000 0x38800000 0x477FE000 23).decompress
      ((FloatCompressor.mk32 0xC77FE000 0x38800000 0x477FE000 23).compress 0xBF800000)
      = 0xBF800000 :=
  c2_lossless_roundtrip 0xC77FE000 0x38800000 0x477FE000 (by decide) 0xBF800000
    (by decide) (by decide) (by decide) (by decide)

namespace FloatCompressor

/-- The lossless code of a positive in-range value. -/
theorem compress_ll_pos (a b c : Nat) (hv : ValidCfg a b c) (z : Nat)
    (hz31 : z < 2^31) (hze : b ≤ z) (hzm : z ≤ c) :
    (mk32 a b c 23).compress z = z + 1 - b := by
  obtain ⟨hm0, hb1, hbc, hcM⟩ := hv
  have hvf : ValidFields (mk32 a b c 23) := validFields_mk32 a b c 23 ⟨hm0, hb1, hbc, hcM⟩
  obtain ⟨hcm, hpd, hnd⟩ := mk32_23_values a b c (by omega) hbc (by omega)
  have hll : (mk32 a b c 23).lossless = true := (mk32_23 a b c).1
  have hcz : (mk32 a b c 23).c_zero = signF := (mk32_23 a b c).2.2.1
  have hclamp : clamp (mk32 a b c 23) z = z :=
    clamp_fixed _ hvf z (Or.inr (Or.inl ⟨by omega, hz31, hze, hzm⟩))
  set fc := mk32 a b c 23 with hfc
  rw [compress_ll fc hll, hclamp]
  have h0 : z ^^^ signF = z + 2^31 := by
    rw [signF_val, xor_top (by omega)]
    omega
  have hcond1 : sgt (z + 2^31) fc.c_max = false := by
    rw [hcm, sgt_negs (by omega) (by omega) (by omega) (by omega)]
    simp
    omega
  have hcond2 : sgt (z + 2^31) fc.c_zero = true := by
    rw [hcz, signF_val]
    exact sgt_intmin_true (by omega) (by omega)
  have hsub : sub32 (z + 2^31) fc.p_delta = z + 2^31 - (b - 1) := by
    rw [hpd, sub32_small (by omega) (by omega)]
  have hsel : sel (z + 2^31) (sub32 (z + 2^31) fc.p_delta) (sgt (z + 2^31) fc.c_zero)
      = z + 2^31 - (b - 1) := by
    rw [sel_of_true (by omega) (sub32_lt _ _) hcond2, hsub]
  have hfin : (z + 2^31 - (b - 1)) ^^^ signF = z + 1 - b := by
    rw [signF_val, xor_top (by omega)]
    omega
  simp only [h0, hcond1, Float16Compressor.sel_false, ite_self, hsel, hfin]

theorem shiftRight_le_shiftRight {x y s : Nat} (h : x ≤ y) : x >>> s ≤ y >>> s := by
  rw [Nat.shiftRight_eq_div_pow, Nat.shiftRight_eq_div_pow]
  exact Nat.div_le_div_right h

/-- The lossy code of a positive in-range value. -/
theorem compress_lossy_pos (a b c p : Nat) (hv : ValidCfg a b c) (hp : p < 23) (z : Nat)
    (hz31 : z < 2^31) (hze : b ≤ z) (hzm : z ≤ c) :
    (mk32 a b c p).compress z
      = (if z >>> (23 - p) = 0 then 0 else z >>> (23 - p) + 1 - b >>> (23 - p)) := by
  obtain ⟨hm0, hb1, hbc, hcM⟩ := hv
  have hvf : ValidFields (mk32 a b c p) := validFields_mk32 a b c p ⟨hm0, hb1, hbc, hcM⟩
  obtain ⟨hllf, hcm, hcz, hpd, hnd⟩ := mk32_lossy a b c p hp
  have hclamp : clamp (mk32 a b c p) z = z :=
    clamp_fixed _ hvf z (Or.inr (Or.inl ⟨by omega, hz31, hze, hzm⟩))
  set fc := mk32 a b c p with hfc
  have hsh : fc.shift = 23 - p := mk32_shift a b c p
  have hzb : z >>> (23 - p) ≤ z := by
    rw [Nat.shiftRight_eq_div_pow]
    exact Nat.div_le_self _ _
  have hqb : b >>> (23 - p) ≤ z >>> (23 - p) := shiftRight_le_shiftRight hze
  have hcb : c >>> (23 - p) ≤ c := by
    rw [Nat.shiftRight_eq_div_pow]
    exact Nat.div_le_self _ _
  have hcond1 : sgt (z >>> (23 - p)) fc.c_max = false := by
    rw [hcm]
    exact sgt_le_false (by omega) (shiftRight_le_shiftRight hzm)
  simp only [compress, hllf, Bool.false_eq_true, if_false, hclamp, hsh, hcond1,
    Float16Compressor.sel_false, ite_self, hcz]
  rcases Nat.eq_zero_or_pos (z >>> (23 - p)) with hz0 | hzpos
  · rw [hz0, if_pos rfl, sgt_irrefl, Float16Compressor.sel_false]
  · rw [if_neg (by omega)]
    have hcond2 : sgt (z >>> (23 - p)) 0 = true := by
      rw [sgt_small (by omega) (by norm_num)]
      simp
      omega
    rw [sel_of_true (by omega) (sub32_lt _ _) hcond2]
    have hqb2 : b >>> (23 - p) ≤ b := by
      rw [Nat.shiftRight_eq_div_pow]
      exact Nat.div_le_self _ _
    rcases Nat.eq_zero_or_pos (b >>> (23 - p)) with hq0 | hqpos
    · rw [hq0, hpd, hq0]
      simp only [sub32]
      omega
    · rw [hpd]
      rw [show sub32 (b >>> (23 - p)) 1 = b >>> (23 - p) - 1 from
        sub32_small (by omega) (by omega)]
      rw [sub32_small (by omega) (by omega)]
      omega

end FloatCompressor

/-- C3 counterexample: with the valid configuration `min = -2`, `epsilon = 1`,
`max = 2`, `precision = 23`, the floats `x1 = -1.0 < x2 = 1.0` both lie in
`[min, max]` and outside the dead zone, yet `compress x1 = 0x800002` is far
greater than `compress x2 = 1`: `compress` orders negatives above positives,
by increasing magnitude. -/
theorem c3_counterexample :
    ValidCfg 0xC0000000 0x3F800000 0x40000000 ∧
    fle 0xC0000000 0xBF800000 ∧ fle 0xBF800000 0x40000000 ∧
    fle 0xC0000000 0x3F800000 ∧ fle 0x3F800000 0x40000000 ∧
    0x3F800000 ≤ mag32 0xBF800000 ∧ 0x3F800000 ≤ mag32 0x3F800000 ∧
    ordKey 0xBF800000 < ordKey 0x3F800000 ∧
    ¬((FloatCompressor.mk32 0xC0000000 0x3F800000 0x40000000 23).compress 0xBF800000
        < (FloatCompressor.mk32 0xC0000000 0x3F800000 0x40000000 23).compress 0x3F800000) := by
  decide

/-- C3 (amended): restricted to nonnegative values, `compress` is monotone: for
`epsilon ≤ x1 ≤ x2 ≤ max` (positive patterns, where bit order is float order),
`compress x1 ≤ compress x2`, and strictly so in lossless mode
(`precision = 23`); in lossy modes distinct values can share a code. -/
theorem c3_monotone_pos (f_min f_eps f_max p : Nat) (hv : ValidCfg f_min f_eps f_max)
    (hp : p ≤ 23) (x1 x2 : Nat) (h131 : x1 < 2^31) (h231 : x2 < 2^31)
    (he1 : f_eps ≤ x1) (h12 : x1 ≤ x2) (hm2 : x2 ≤ f_max) :
    (FloatCompressor.mk32 f_min f_eps f_max p).compress x1
        ≤ (FloatCompressor.mk32 f_min f_eps f_max p).compress x2 ∧
      (p = 23 → x1 < x2 →
        (FloatCompressor.mk32 f_min f_eps f_max p).compress x1
          < (FloatCompressor.mk32 f_min f_eps f_max p).compress x2) := by
  have hb1 : 1 ≤ f_eps := hv.2.1
  rcases Nat.lt_or_ge p 23 with hlt | hge
  · have h1 := FloatCompressor.compress_lossy_pos f_min f_eps f_max p hv hlt x1 h131 he1
      (le_trans h12 hm2)
    have h2 := FloatCompressor.compress_lossy_pos f_min f_eps f_max p hv hlt x2 h231
      (le_trans he1 h12) hm2
    rw [h1, h2]
    have hmono : x1 >>> (23 - p) ≤ x2 >>> (23 - p) :=
      FloatCompressor.shiftRight_le_shiftRight h12
    have hq1 : f_eps >>> (23 - p) ≤ x1 >>> (23 - p) :=
      FloatCompressor.shiftRight_le_shiftRight he1
    constructor
    · rcases Nat.eq_zero_or_pos (x1 >>> (23 - p)) with hz0 | hzpos
      · rw [hz0, if_pos rfl]
        omega
      · rw [if_neg (by omega), if_neg (by omega)]
        omega
    · intro hc
      omega
  · have hp23 : p = 23 := by omega
    subst hp23
    rw [FloatCompressor.compress_ll_pos f_min f_eps f_max hv x1 h131 he1 (le_trans h12 hm2),
      FloatCompressor.compress_ll_pos f_min f_eps f_max hv x2 h231 (le_trans he1 h12) hm2]
    omega

theorem c3_monotone_pos_witness :
    ((FloatCompressor.mk32 0xC0000000 0x3F800000 0x40000000 23).compress 0x3F800000
        ≤ (FloatCompressor.mk32 0xC0000000 0x3F800000 0x40000000 23).compress 0x3FC00000 ∧
      (23 = 23 → 0x3F800000 < 0x3FC00000 →
        (FloatCompressor.mk32 0xC0000000 0x3F800000 0x40000000 23).compress 0x3F800000
          < (FloatCompressor.mk32 0xC0000000 0x3F800000 0x40000000 23).compress 0x3FC00000)) :=
  c3_monotone_pos 0xC0000000 0x3F800000 0x40000000 23 (by decide) (by decide)
    0x3F800000 0x3FC00000 (by decide) (by decide) (by decide) (by decide) (by decide)

theorem not_nan_of_mag {w : Nat} (h : w % 2^31 ≤ 0x7F800000) : ¬isNaN32 w := by
  simp only [isNaN32, mag32, not_lt]
  exact h

namespace FloatCompressor

/-- For nonnegative inputs the output of `clamp` is zero or a positive value in
`[epsilon, max]`. -/
theorem clamp_mem_pos (fc : FloatCompressor) (hv : ValidFields fc) (w : Nat) (hw : w < 2^31) :
    clamp fc w = 0 ∨
      (0 < clamp fc w ∧ clamp fc w < 2^31 ∧ fc.f_eps ≤ clamp fc w ∧ clamp fc w ≤ fc.f_max) := by
  obtain ⟨hmin, hneg, he1, hef, hfm⟩ := hv
  have hfm31 : fc.f_max < 2^31 := by omega
  have he31 : fc.f_eps < 2^31 := by omega
  simp only [clamp]
  rw [clamp_mx_pos hw]
  rcases Nat.lt_or_ge fc.f_max w with hgt | hle
  · rw [sel_of_true (by omega) (by omega) (sgt_lt_true hw hgt),
      clamp_last (by omega) he31, if_pos (by omega)]
    right
    exact ⟨by omega, hfm31, le_of_lt hef, le_refl _⟩
  · rw [sel_of_false (sgt_le_false hfm31 hle), clamp_last (by omega) he31]
    rcases Nat.lt_or_ge (w % 2^31) fc.f_eps with hdead | hkeep
    · rw [if_neg (by omega)]
      left; rfl
    · rw [if_pos (by omega)]
      right
      exact ⟨by omega, hw, by omega, hle⟩

end FloatCompressor

/-- C4 counterexample: with the valid configuration `min = 0`, `epsilon = 1`,
`max = 2`, negatives are not representable, yet `clamp(-5.0)` returns `-5.0`
unchanged (not a value in `[0, max]`); and the dead zone produces `+0.0`, not a
sign-carrying zero: `clamp(-0.5) = +0.0`, whose pattern is `0`, not the
negative-zero pattern `0x80000000`. -/
theorem c4_counterexample :
    ValidCfg 0 0x3F800000 0x40000000 ∧
    (FloatCompressor.mk32 0 0x3F800000 0x40000000 12).negatives = false ∧
    (FloatCompressor.mk32 0 0x3F800000 0x40000000 12).clamp 0xC0A00000 = 0xC0A00000 ∧
    ¬fle 0 ((FloatCompressor.mk32 0 0x3F800000 0x40000000 12).clamp 0xC0A00000) ∧
    (FloatCompressor.mk32 0 0x3F800000 0x40000000 12).clamp 0xBF000000 = 0 ∧
    (0 : Nat) ≠ 0x80000000 := by
  decide

/-- C4 (amended): under a valid configuration, `clamp` maps every input of
magnitude below `epsilon` to exact positive zero `+0.0`; when negatives are
representable its output always lies in `[min, max]` (float order); when they
are not, its output lies in `[0, max]` for nonnegative inputs, while negative
inputs outside the dead zone pass through unchanged. -/
theorem c4_clamp_behavior (f_min f_eps f_max p : Nat) (hv : ValidCfg f_min f_eps f_max)
    (w : Nat) (hw : w < 2^32) :
    (mag32 w < f_eps → (FloatCompressor.mk32 f_min f_eps f_max p).clamp w = 0) ∧
    ((FloatCompressor.mk32 f_min f_eps f_max p).negatives = true →
      fle f_min ((FloatCompressor.mk32 f_min f_eps f_max p).clamp w) ∧
      fle ((FloatCompressor.mk32 f_min f_eps f_max p).clamp w) f_max) ∧
    ((FloatCompressor.mk32 f_min f_eps f_max p).negatives = false →
      (w < 2^31 →
        fle 0 ((FloatCompressor.mk32 f_min f_eps f_max p).clamp w) ∧
        fle ((FloatCompressor.mk32 f_min f_eps f_max p).clamp w) f_max) ∧
      (2^31 ≤ w → f_eps ≤ mag32 w →
        (FloatCompressor.mk32 f_min f_eps f_max p).clamp w = w)) := by
  have hvf := FloatCompressor.validFields_mk32 f_min f_eps f_max p hv
  obtain ⟨hm0, hb1, hbc, hcM⟩ := hv
  have hnm : ¬isNaN32 f_max := not_nan_of_mag (by omega)
  have hnmin : ¬isNaN32 f_min := not_nan_of_mag (by rcases hm0 with h | ⟨h1, h2⟩ <;> omega)
  have hn0 : ¬isNaN32 0 := not_nan_of_mag (by norm_num)
  refine ⟨?_, ?_, ?_⟩
  · intro hd
    exact FloatCompressor.clamp_dead _ hvf w hw (by rw [FloatCompressor.mk32_f_eps]; exact hd)
  · intro hneg
    have ha31 : 2^31 ≤ f_min := by
      rcases hm0 with h00 | ⟨h1, h2⟩
      · exfalso
        have := @FloatCompressor.negatives_false_of_min0
          (FloatCompressor.mk32 f_min f_eps f_max p) rfl
          (by rw [FloatCompressor.mk32_f_min]; exact h00)
        rw [hneg] at this
        cases this
      · exact h1
    have haM : f_min ≤ 2^31 + 0x7F800000 := by
      rcases hm0 with h00 | ⟨h1, h2⟩
      · omega
      · exact h2
    have hz := FloatCompressor.clamp_mem _ hvf w hw
    rcases hz with hz0 | ⟨hz1, hz2, hz3, hz4⟩ | ⟨hz1, hz2, hz3, hz4⟩
    · rw [hz0]
      constructor
      · exact ⟨hnmin, hn0, by rw [ordKey_neg ha31, ordKey_pos (by norm_num)]; omega⟩
      · exact ⟨hn0, hnm, by rw [ordKey_pos (by norm_num), ordKey_pos (by omega)]; omega⟩
    · rw [FloatCompressor.mk32_f_eps] at hz3
      rw [FloatCompressor.mk32_f_max] at hz4
      have hznan : ¬isNaN32 ((FloatCompressor.mk32 f_min f_eps f_max p).clamp w) :=
        not_nan_of_mag (by omega)
      constructor
      · exact ⟨hnmin, hznan, by rw [ordKey_neg ha31, ordKey_pos hz2]; omega⟩
      · exact ⟨hznan, hnm, by rw [ordKey_pos hz2, ordKey_pos (by omega)]; omega⟩
    · rw [FloatCompressor.mk32_f_eps] at hz3
      have hzmin := hz4 hneg
      rw [FloatCompressor.mk32_f_min] at hzmin
      have hznan : ¬isNaN32 ((FloatCompressor.mk32 f_min f_eps f_max p).clamp w) :=
        not_nan_of_mag (by omega)
      constructor
      · exact ⟨hnmin, hznan, by rw [ordKey_neg ha31, ordKey_neg hz1]; omega⟩
      · exact ⟨hznan, hnm, by rw [ordKey_neg hz1, ordKey_pos (by omega)]; omega⟩
  · intro hnegf
    constructor
    · intro hwp
      have hz := FloatCompressor.clamp_mem_pos _ hvf w hwp
      rcases hz with hz0 | ⟨hz1, hz2, hz3, hz4⟩
      · rw [hz0]
        constructor
        · exact ⟨hn0, hn0, le_refl _⟩
        · exact ⟨hn0, hnm, by rw [ordKey_pos (by norm_num), ordKey_pos (by omega)]; omega⟩
      · rw [FloatCompressor.mk32_f_max] at hz4
        have hznan : ¬isNaN32 ((FloatCompressor.mk32 f_min f_eps f_max p).clamp w) :=
          not_nan_of_mag (by omega)
        constructor
        · exact ⟨hn0, hznan, by rw [ordKey_pos (by norm_num), ordKey_pos hz2]; omega⟩
        · exact ⟨hznan, hnm, by rw [ordKey_pos hz2, ordKey_pos (by omega)]; omega⟩
    · intro hwn heps
      apply FloatCompressor.clamp_fixed _ hvf w
      right; right
      refine ⟨hwn, hw, ?_, fun h => ?_⟩
      · rw [FloatCompressor.mk32_f_eps]
        simp only [mag32] at heps
        omega
      · rw [hnegf] at h
        cases h

theorem c4_clamp_behavior_witness :
    (mag32 0x7FC00000 < 0x3F800000 →
      (FloatCompressor.mk32 0xC0000000 0x3F800000 0x40000000 12).clamp 0x7FC00000 = 0) ∧
    ((FloatCompressor.mk32 0xC0000000 0x3F800000 0x40000000 12).negatives = true →
      fle 0xC0000000 ((FloatCompressor.mk32 0xC0000000 0x3F800000 0x40000000 12).clamp 0x7FC00000) ∧
      fle ((FloatCompressor.mk32 0xC0000000 0x3F800000 0x40000000 12).clamp 0x7FC00000) 0x40000000) ∧
    ((FloatCompressor.mk32 0xC0000000 0x3F800000 0x40000000 12).negatives = false →
      (0x7FC00000 < 2^31 →
        fle 0 ((FloatCompressor.mk32 0xC0000000 0x3F800000 0x40000000 12).clamp 0x7FC00000) ∧
        fle ((FloatCompressor.mk32 0xC0000000 0x3F800000 0x40000000 12).clamp 0x7FC00000) 0x40000000) ∧
      (2^31 ≤ 0x7FC00000 → 0x3F800000 ≤ mag32 0x7FC00000 →
        (FloatCompressor.mk32 0xC0000000 0x3F800000 0x40000000 12).clamp 0x7FC00000 = 0x7FC00000)) :=
  c4_clamp_behavior 0xC0000000 0x3F800000 0x40000000 12 (by decide) 0x7FC00000 (by decide)

/-- Round-tripping through the 18-bit micro-float format a second time changes
nothing: every `decompress18` output has its exponent field in `[0x70, 0x8F]`
and its bottom 11 bits zero, so the second trip is exact. -/
theorem decompress18_idem (t : Nat) :
    decompress18 (compress18 (decompress18 t)) = decompress18 t := by
  rw [decompress18_eval t]
  have hs : t / 2^17 % 2 < 2 := Nat.mod_lt _ (by norm_num)
  have he : t / 2^12 % 2^5 < 2^5 := Nat.mod_lt _ (by norm_num)
  have hm : t % 2^12 < 2^12 := Nat.mod_lt _ (by norm_num)
  generalize t / 2^17 % 2 = s at hs
  generalize t / 2^12 % 2^5 = e at he
  generalize t % 2^12 = m at hm
  rw [compress18_eval _ (by omega) (by omega) (by omega), decompress18_eval]
  omega

namespace FloatCompressor

/-- A second lossless round trip is idempotent: `decompress ∘ compress` lands on
the clamped value, which is a fixed point of the whole pipeline. -/
theorem roundtrip_ll_idem (a b c : Nat) (hv : ValidCfg a b c) (w : Nat) (hw : w < 2^32) :
    (mk32 a b c 23).decompress ((mk32 a b c 23).compress
        ((mk32 a b c 23).decompress ((mk32 a b c 23).compress w)))
      = (mk32 a b c 23).decompress ((mk32 a b c 23).compress w) := by
  have hvf : ValidFields (mk32 a b c 23) := validFields_mk32 a b c 23 hv
  have hz : ClampOut (mk32 a b c 23) (clamp (mk32 a b c 23) w) := clamp_mem _ hvf w hw
  have hcc : (mk32 a b c 23).compress w = (mk32 a b c 23).compress (clamp (mk32 a b c 23) w) := by
    simp only [compress, clamp_fixed _ hvf _ hz]
  have hy : (mk32 a b c 23).decompress ((mk32 a b c 23).compress w) = clamp (mk32 a b c 23) w := by
    rw [hcc, roundtrip_ll a b c hv _ hz]
  rw [hy, roundtrip_ll a b c hv _ hz]

end FloatCompressor

/-- C9 counterexample: the lossy `FloatCompressor` built from the valid
configuration `min = 0`, `epsilon = 1.5`, `max = 2`, `precision = 0` is not
idempotent at `x = 1.5`: the first round trip gives `1.0` (pattern
`0x3F800000`), but round-tripping that result again gives `+0.0`, because `1.0`
now falls inside the dead zone `|x| < 1.5`. -/
theorem c9_counterexample :
    ValidCfg 0 0x3FC00000 0x40000000 ∧
    (FloatCompressor.mk32 0 0x3FC00000 0x40000000 0).decompress
        ((FloatCompressor.mk32 0 0x3FC00000 0x40000000 0).compress 0x3FC00000) = 0x3F800000 ∧
    (FloatCompressor.mk32 0 0x3FC00000 0x40000000 0).decompress
        ((FloatCompressor.mk32 0 0x3FC00000 0x40000000 0).compress
          ((FloatCompressor.mk32 0 0x3FC00000 0x40000000 0).decompress
            ((FloatCompressor.mk32 0 0x3FC00000 0x40000000 0).compress 0x3FC00000))) = 0 ∧
    (0 : Nat) ≠ 0x3F800000 := by
  decide

/-- C9 (amended): a second round trip is idempotent for `Float16Compressor` on
every 32-bit pattern, for the 18-bit micro-float pair on every input, and for a
`FloatCompressor` in lossless mode (`precision = 23`) under a valid
configuration; lossy `FloatCompressor` configurations can violate it. -/
theorem c9_idempotent :
    (∀ w : Nat, Float16Compressor.decompress (Float16Compressor.compress
        (Float16Compressor.decompress (Float16Compressor.compress w)))
      = Float16Compressor.decompress (Float16Compressor.compress w)) ∧
    (∀ w : Nat, decompress18 (compress18 (decompress18 (compress18 w)))
      = decompress18 (compress18 w)) ∧
    (∀ a b c : Nat, ValidCfg a b c → ∀ w : Nat, w < 2^32 →
      (FloatCompressor.mk32 a b c 23).decompress ((FloatCompressor.mk32 a b c 23).compress
          ((FloatCompressor.mk32 a b c 23).decompress ((FloatCompressor.mk32 a b c 23).compress w)))
        = (FloatCompressor.mk32 a b c 23).decompress ((FloatCompressor.mk32 a b c 23).compress w)) := by
  refine ⟨?_, ?_, ?_⟩
  · intro w
    exact congrArg Float16Compressor.decompress
      (Float16Compressor.compress_decompress_id _ (Float16Compressor.compress_lt _))
  · intro w
    exact decompress18_idem (compress18 w)
  · intro a b c hv w hw
    exact FloatCompressor.roundtrip_ll_idem a b c hv w hw

theorem c9_idempotent_witness :
    Float16Compressor.decompress (Float16Compressor.compress
        (Float16Compressor.decompress (Float16Compressor.compress 0x41000000)))
      = Float16Compressor.decompress (Float16Compressor.compress 0x41000000) ∧
    decompress18 (compress18 (decompress18 (compress18 0x41000000)))
      = decompress18 (compress18 0x41000000) ∧
    (FloatCompressor.mk32 0xC0000000 0x3F800000 0x40000000 23).decompress
        ((FloatCompressor.mk32 0xC0000000 0x3F800000 0x40000000 23).compress
          ((FloatCompressor.mk32 0xC0000000 0x3F800000 0x40000000 23).decompress
            ((FloatCompressor.mk32 0xC0000000 0x3F800000 0x40000000 23).compress 0x41000000)))
      = (FloatCompressor.mk32 0xC0000000 0x3F800000 0x40000000 23).decompress
          ((FloatCompressor.mk32 0xC0000000 0x3F800000 0x40000000 23).compress 0x41000000) :=
  ⟨c9_idempotent.1 0x41000000, c9_idempotent.2.1 0x41000000,
   c9_idempotent.2.2 0xC0000000 0x3F800000 0x40000000 (by decide) 0x41000000 (by decide)⟩

/-- C10 counterexample: constructing a `FloatCompressor` with the invalid
configuration `min = 0, epsilon = 0, max = 1.0, precision = 12` (violating
`0 < epsilon`) does not fail: construction completes and silently produces the
corrupted delta constant `p_delta = 0xFFFFFFFF` (the wrapped `0 - 1`). -/
theorem c10_counterexample :
    ¬ValidCfg 0 0 0x3F800000 ∧
    (FloatCompressor.mk32 0 0 0x3F800000 12).p_delta = 0xFFFFFFFF ∧
    (FloatCompressor.mk32 0 0 0x3F800000 12).negatives = false ∧
    (FloatCompressor.mk32 0 0 0x3F800000 12).lossless = false := by
  decide

/-- C10 (amended): for every precision in `[0, 23]` the constructor performs no
validation: for every argument tuple, including invalid configurations
(`min > 0`, `epsilon ≤ 0`, `epsilon ≥ max`), construction completes and the
delta constants are computed by the same wrapping formulas as in the valid
case, with no error raised — lossy (`precision < 23`) and lossless
(`precision = 23`) alike. -/
theorem c10_no_validation (a b c p : Nat) (hp : p ≤ 23) (hinv : ¬ValidCfg a b c) :
    (p < 23 →
      (FloatCompressor.mk32 a b c p).lossless = false ∧
      (FloatCompressor.mk32 a b c p).c_zero = 0 ∧
      (FloatCompressor.mk32 a b c p).p_delta = sub32 (b >>> (23 - p)) 1 ∧
      (FloatCompressor.mk32 a b c p).n_delta
        = sub32 (sub32 ((b ^^^ FloatCompressor.signF) >>> (23 - p)) (c >>> (23 - p))) 1) ∧
    (p = 23 →
      (FloatCompressor.mk32 a b c p).lossless = true ∧
      (FloatCompressor.mk32 a b c p).c_zero = FloatCompressor.signF ∧
      (FloatCompressor.mk32 a b c p).p_delta
        = sub32 (sub32 (b ^^^ FloatCompressor.signF) FloatCompressor.signF) 1 ∧
      (FloatCompressor.mk32 a b c p).n_delta
        = sub32 (sub32 b (c ^^^ FloatCompressor.signF)) 1) := by
  constructor
  · intro hlt
    obtain ⟨h1, -, -, h2, h3⟩ := FloatCompressor.mk32_lossy a b c p hlt
    exact ⟨h1, by rw [(FloatCompressor.mk32_lossy a b c p hlt).2.2.1], h2, h3⟩
  · intro h23
    subst h23
    obtain ⟨h1, -, h2, h3, h4⟩ := FloatCompressor.mk32_23 a b c
    exact ⟨h1, h2, h3, h4⟩

theorem c10_no_validation_witness :
    ((23 : Nat) < 23 →
      (FloatCompressor.mk32 0x3F800000 0 0x3F800000 23).lossless = false ∧
      (FloatCompressor.mk32 0x3F800000 0 0x3F800000 23).c_zero = 0 ∧
      (FloatCompressor.mk32 0x3F800000 0 0x3F800000 23).p_delta = sub32 (0 >>> (23 - 23)) 1 ∧
      (FloatCompressor.mk32 0x3F800000 0 0x3F800000 23).n_delta
        = sub32 (sub32 ((0 ^^^ FloatCompressor.signF) >>> (23 - 23)) (0x3F800000 >>> (23 - 23))) 1) ∧
    ((23 : Nat) = 23 →
      (FloatCompressor.mk32 0x3F800000 0 0x3F800000 23).lossless = true ∧
      (FloatCompressor.mk32 0x3F800000 0 0x3F800000 23).c_zero = FloatCompressor.signF ∧
      (FloatCompressor.mk32 0x3F800000 0 0x3F800000 23).p_delta
        = sub32 (sub32 (0 ^^^ FloatCompressor.signF) FloatCompressor.signF) 1 ∧
      (FloatCompressor.mk32 0x3F800000 0 0x3F800000 23).n_delta
        = sub32 (sub32 0 (0x3F800000 ^^^ FloatCompressor.signF)) 1) :=
  c10_no_validation 0x3F800000 0 0x3F800000 23 (by decide) (by decide)
